import Mathlib

/-!
Verification of the gen_video backend (short-form video generation pipeline).

The JavaScript sources under src/ are shallowly embedded:
* JS numbers that stay integral are modelled as ℤ; fractional arithmetic
  (audio pacing multipliers) is modelled exactly as ℚ;
* JS strings are Lean Strings (ASCII-level semantics for toLowerCase);
* absent object fields / null are modelled as Option, matching JS truthiness
  where the source tests them;
* fallible code returns Except/Option; Math.random outcomes are an injected
  stream of naturals, one value per call site.
-/

namespace GenVideo

/-! ## JavaScript primitives -/

/-- Math.round: JS rounds half away from zero for positive values,
half up in general (toward +infinity). -/
def jsRound (q : ℚ) : ℤ := ⌊q + 1/2⌋

/-- Math.ceil(a / b) for an integer a and positive integer b (the only use in
the source), as integer ceiling division. -/
def jsCeilDiv (a b : ℤ) : ℤ := (a + b - 1) / b

/-- The apostrophe character, used in several literal phrases of the source. -/
def apos : Char := Char.ofNat 39

/-- Whitespace characters matched by the regex class backslash-s
(ASCII part: space, tab, newline, carriage return, vertical tab, form feed). -/
def jsIsWs (c : Char) : Bool :=
  c = ' ' || c = '\t' || c = '\n' || c = '\r' || c = Char.ofNat 11 || c = Char.ofNat 12

/-- Characters of the regex word class: letters, digits and underscore. -/
def jsIsWordChar (c : Char) : Bool := c.isAlphanum || c = '_'

/-- Lower-casing a string, ASCII semantics of String.prototype.toLowerCase. -/
def jsToLower (s : String) : String := String.mk (s.data.map Char.toLower)

/-- word.replace of the non-word class by the empty string: keep word chars. -/
def stripNonWord (s : String) : String := String.mk (s.data.filter jsIsWordChar)

/-- Auxiliary for jsSplitWs: the current piece is accumulated reversed in
acc; the flag records whether the previous character was whitespace, so that
a whitespace run emits a single boundary. -/
def jsSplitWsAux : Bool → List Char → List Char → List String
  | _, [], acc => [String.mk acc.reverse]
  | prevWs, c :: rest, acc =>
    if jsIsWs c then
      if prevWs then jsSplitWsAux true rest acc
      else String.mk acc.reverse :: jsSplitWsAux true rest []
    else jsSplitWsAux false rest (c :: acc)

/-- String.prototype.split on the regex of 1+ whitespace chars: pieces between
maximal whitespace runs; leading/trailing whitespace yields empty pieces, and
the empty string splits to a single empty piece (JS semantics). -/
def jsSplitWs (s : String) : List String := jsSplitWsAux false s.data []

/-- Trimming leading and trailing whitespace (String.prototype.trim). -/
def jsTrim (s : String) : String :=
  String.mk (((s.data.dropWhile jsIsWs).reverse.dropWhile jsIsWs).reverse)

/-- Substring test on char lists (String.prototype.includes). -/
def listContainsSub : List Char → List Char → Bool
  | [], pat => pat.isEmpty
  | c :: rest, pat => pat.isPrefixOf (c :: rest) || listContainsSub rest pat

/-- String.prototype.includes. -/
def strIncludes (hay pat : String) : Bool := listContainsSub hay.data pat.data

/-! ## Caption service (src/backend/src/services/captionService.js) -/

/-- A word-level timestamp as produced by the audio service. -/
structure WordStamp where
  word : String
  start_ms : ℤ
  end_ms : ℤ
  emphasis : Bool
deriving DecidableEq, Repr

/-- A caption instruction (the static style block of the source is constant
and carries no information, so it is not modelled). -/
structure Caption where
  text : String
  start_ms : ℤ
  end_ms : ℤ
  emphasis_indices : List ℕ
deriving DecidableEq, Repr

namespace CaptionService

/-- CaptionService._pushGroup: append the current group as one caption. -/
def pushGroup (groups : List Caption) (currentGroup : List WordStamp) : List Caption :=
  groups ++ [{ text := String.intercalate " " (currentGroup.map (·.word)),
               start_ms := ((currentGroup.head?).map (·.start_ms)).getD 0,
               end_ms := ((currentGroup.getLast?).map (·.end_ms)).getD 0,
               emphasis_indices :=
                 (currentGroup.enum.filter (fun p => p.2.emphasis)).map (·.1) }]

/-- The forEach body of CaptionService.generateTimeline; currentGroup is kept
in order (currentGroup[0] is the head). The last word always flushes the
pending group. -/
def generateTimelineAux : List WordStamp → List Caption → List WordStamp → List Caption
  | [], groups, _ => groups
  | item :: rest, groups, currentGroup =>
    let isFirstInGroup := currentGroup.isEmpty
    let potentialStart :=
      if isFirstInGroup then item.start_ms
      else ((currentGroup.head?).map (·.start_ms)).getD 0
    let potentialDuration := item.end_ms - potentialStart
    let wouldExceedDuration := !isFirstInGroup && potentialDuration > 800
    let reachedMaxWords := currentGroup.length ≥ 3
    let next :=
      if wouldExceedDuration || reachedMaxWords then
        (pushGroup groups currentGroup, [item])
      else
        (groups, currentGroup ++ [item])
    match rest with
    | [] => if next.2.length > 0 then pushGroup next.1 next.2 else next.1
    | _ => generateTimelineAux rest next.1 next.2

/-- CaptionService.generateTimeline: greedy grouping of word timestamps into
captions (max 3 words, max 800 ms per group). -/
def generateTimeline (timestamps : List WordStamp) : List Caption :=
  generateTimelineAux timestamps [] []

end CaptionService

/-! ## Audio service (src/backend/src/services/qualityControlService.js, AudioService part) -/

/-- The script object accepted by AudioService.generateVoiceover:
hook, body sentences, ending. -/
structure ScriptData where
  hook : String
  body : List String
  ending : String
deriving DecidableEq, Repr

/-- The timing part of the audio result (audio_path and the constant pacing
metadata block are file-system / constant data and are not modelled). -/
structure AudioResult where
  timestamps : List WordStamp
  duration_ms : ℤ
deriving DecidableEq, Repr

namespace AudioService

/-- The emphasis catalyst list of AudioService._checkEmphasis. -/
def catalysts : List String :=
  ["but", "however", "instead", "secret", "hidden", "mastery",
   "always", "never", "must", "only", "stop", "start", "limit"]

/-- AudioService._checkEmphasis: lower-case, strip non-word chars, then
test for a digit or membership in the catalyst list. -/
def checkEmphasis (word : String) : Bool :=
  let clean := stripNonWord (jsToLower word)
  clean.data.any (·.isDigit) || catalysts.contains clean

/-- The words.forEach loop of generateVoiceover: emit one timestamp per word,
advancing the running cursor and the section duration accumulator (both exact
rationals, as the JS floats). -/
def processWords (m : ℚ) : List String → ℚ → ℚ → List WordStamp × ℚ × ℚ
  | [], c, sd => ([], c, sd)
  | w :: ws, c, sd =>
    let isEmphasis := checkEmphasis w
    let wordDuration : ℚ := if isEmphasis then 300 * m * 1.15 else 300 * m
    let stamp : WordStamp :=
      { word := stripNonWord w,
        start_ms := jsRound c,
        end_ms := jsRound (c + wordDuration),
        emphasis := isEmphasis }
    let rest := processWords m ws (c + wordDuration) (sd + wordDuration)
    (stamp :: rest.1, rest.2)

/-- The allText.forEach loop of generateVoiceover: idx is the current section
index, n the total number of sections. The source initialises the multiplier
to 1.0, overwrites with 0.8 for the hook (index 0) and then with 1.2 for the
ending (last index), so the ending test wins when both apply. Between
sections a pause of clamp(sectionDuration times 0.15, 150, 450) ms is added. -/
def voCore : List String → ℕ → ℕ → ℚ → List WordStamp × ℚ
  | [], _, _, c => ([], c)
  | sec :: rest, idx, n, c =>
    let words := jsSplitWs sec
    let isHook := idx = 0
    let isEnding := idx = n - 1
    let m : ℚ := if isEnding then 1.2 else if isHook then 0.8 else 1.0
    let r := processWords m words c 0
    let c2 :=
      if idx < n - 1 then r.2.1 + min (max (r.2.2 * 0.15) 150) 450 else r.2.1
    let tail := voCore rest (idx + 1) n c2
    (r.1 ++ tail.1, tail.2)

/-- allText for a script object: the sections, with falsy (empty) entries
removed by the filter(Boolean) of the source. -/
def allTextOf (sd : ScriptData) : List String :=
  (sd.hook :: (sd.body ++ [sd.ending])).filter (fun s => !(s = ""))

/-- AudioService.generateVoiceover on a script object. -/
def generateVoiceover (sd : ScriptData) : AudioResult :=
  let allText := allTextOf sd
  let r := voCore allText 0 allText.length 0
  { timestamps := r.1, duration_ms := jsRound r.2 }

/-- AudioService.generateVoiceover on a plain string (the scene processor
calls it this way): allText is the one-element list. -/
def generateVoiceoverText (s : String) : AudioResult :=
  let allText := [s]
  let r := voCore allText 0 allText.length 0
  { timestamps := r.1, duration_ms := jsRound r.2 }

end AudioService

/-! ### Claim-side description of the timing model (C2)

These definitions follow the wording of the specification sentence by
sentence, to be compared with the source embedding above. -/

namespace AudioSpec

/-- Spec wording: the token, lower-cased and stripped of non-word characters,
contains a digit or is one of the thirteen trigger words. -/
def emphasisTrigger (word : String) : Bool :=
  let token := stripNonWord (jsToLower word)
  token.data.any (·.isDigit) ||
    ["but", "however", "instead", "secret", "hidden", "mastery",
     "always", "never", "must", "only", "stop", "start", "limit"].contains token

/-- Spec wording: per-word duration 300 times the section multiplier, further
times 1.15 exactly when the word is an emphasis trigger. -/
def wordDuration (m : ℚ) (w : String) : ℚ :=
  if emphasisTrigger w then 300 * m * 1.15 else 300 * m

/-- Spec wording: emit the words of one section in order from the cursor. -/
def emitSection (m : ℚ) : List String → ℚ → ℚ → List WordStamp × ℚ × ℚ
  | [], c, sd => ([], c, sd)
  | w :: ws, c, sd =>
    let d := wordDuration m w
    let stamp : WordStamp :=
      { word := stripNonWord w,
        start_ms := jsRound c,
        end_ms := jsRound (c + d),
        emphasis := emphasisTrigger w }
    let rest := emitSection m ws (c + d) (sd + d)
    (stamp :: rest.1, rest.2)

/-- Spec wording: clamp(x, lo, hi). -/
def clamp (x lo hi : ℚ) : ℚ := min (max x lo) hi

/-- Spec wording: multiplier 0.8 for the hook section (index 0), 1.2 for the
ending section (last index), 1.0 otherwise; between consecutive sections a
pause of clamp(section duration times 0.15, 150, 450); no pause after the
last section. -/
def emitSections : List String → ℕ → ℕ → ℚ → List WordStamp × ℚ
  | [], _, _, c => ([], c)
  | sec :: rest, idx, n, c =>
    let m : ℚ := if idx = 0 then 0.8 else if idx = n - 1 then 1.2 else 1.0
    let r := emitSection m (jsSplitWs sec) c 0
    let c2 := if idx < n - 1 then r.2.1 + clamp (r.2.2 * 0.15) 150 450 else r.2.1
    let tail := emitSections rest (idx + 1) n c2
    (r.1 ++ tail.1, tail.2)

/-- The claim-side voiceover function: sections are hook, body sentences and
ending in order; duration_ms is the final running cursor rounded to the
nearest integer. -/
def voiceover (sd : ScriptData) : AudioResult :=
  let sections := sd.hook :: (sd.body ++ [sd.ending])
  let r := emitSections sections 0 sections.length 0
  { timestamps := r.1, duration_ms := jsRound r.2 }

end AudioSpec

/-! ## In-memory job queue (src/backend/src/queue/inMemoryQueue.js) -/

/-- A job record. The accumulated result object is abstracted as a String
payload; message and result are absent (undefined) until first set, so they
are Options. created_at is an opaque timestamp. -/
structure Job where
  id : String
  topic : String
  duration_seconds : ℚ
  tone : String
  dry_run : Bool
  status : String
  progress : ℚ
  eta_seconds : ℚ
  created_at : ℕ
  result : Option String := none
  message : Option String := none
deriving DecidableEq, Repr

namespace InMemoryQueue

/-- Queue state: the jobs map (association list with unique keys, insertion
order) and the FIFO of pending job ids. -/
structure State where
  jobs : List (String × Job)
  queue : List String
deriving DecidableEq, Repr

/-- Map lookup (this.jobs.get). -/
def getJob (st : State) (jobId : String) : Option Job :=
  (st.jobs.find? (fun p => p.1 = jobId)).map (·.2)

/-- Replace the value stored under a key (mutation of the found Map entry). -/
def setJob : List (String × Job) → String → Job → List (String × Job)
  | [], _, _ => []
  | (k, v) :: rest, jobId, j =>
    if k = jobId then (k, j) :: rest else (k, v) :: setJob rest jobId j

/-- The field mutations of updateJobStatus on the found job: status is always
assigned; result only when truthy (a present object); progress, eta and
message only when not null. -/
def applyUpdate (j : Job) (status : String) (result : Option String)
    (progress eta : Option ℚ) (message : Option String) : Job :=
  { j with
    status := status,
    result := if result.isSome then result else j.result,
    progress := match progress with | some p => p | none => j.progress,
    eta_seconds := match eta with | some e => e | none => j.eta_seconds,
    message := match message with | some m => some m | none => j.message }

/-- InMemoryQueue.updateJobStatus: look the job up; if absent do nothing,
else mutate its fields in place. -/
def updateJobStatus (st : State) (jobId : String) (status : String)
    (result : Option String := none) (progress : Option ℚ := none)
    (eta : Option ℚ := none) (message : Option String := none) : State :=
  match getJob st jobId with
  | none => st
  | some j =>
    { st with jobs := setJob st.jobs jobId (applyUpdate j status result progress eta message) }

end InMemoryQueue

/-! ## API routes (POST /api/generate) -/

namespace Routes

/-- What the duration check of the /generate handler observes of the JSON
value duration_seconds. The handler evaluates !duration_seconds (JS
truthiness) and the relational comparisons duration_seconds < 20 and
duration_seconds > 60; since the other operand is a number, both comparisons
coerce duration_seconds with ToNumber, and a comparison against a NaN
coercion (modelled as none) is false. A JSON number q is
⟨decide (q ≠ 0), some q⟩; an absent field or null is falsy; a string s is
⟨decide (s ≠ ""), StringToNumber s⟩ (the string "30" coerces to 30, "abc" to
NaN, "" to 0); true is ⟨true, some 1⟩ and false is ⟨false, some 0⟩; objects
and arrays are truthy and coerce through their primitive string (a plain
object to NaN). -/
structure DurationValue where
  truthy : Bool
  toNumber : Option ℚ
deriving DecidableEq, Repr

/-- The JS relational comparison x < q of a coerced operand against a number
(false when the coercion is NaN). -/
def jsLtNum : Option ℚ → ℚ → Bool
  | none, _ => false
  | some x, q => decide (x < q)

/-- The JS relational comparison x > q of a coerced operand against a number
(false when the coercion is NaN). -/
def jsGtNum : Option ℚ → ℚ → Bool
  | none, _ => false
  | some x, q => decide (x > q)

/-- The request body of POST /api/generate. For topic and tone, none models
an absent field or a field of the wrong runtime type: the source rejects a
falsy or non-string topic through !topic / typeof, and a falsy or non-string
tone through !tone / validTones.includes. duration_seconds is any JSON value,
observed through its truthiness and ToNumber coercion (DurationValue): the
source does NOT reject non-numeric durations whose coercion is NaN. -/
structure GenerateBody where
  topic : Option String
  duration_seconds : DurationValue
  tone : Option String
deriving DecidableEq, Repr

/-- Outcome of the /api/generate handler: 202 with the created job status (the
generated job_id is an opaque UUID), or 400 with the error message. -/
inductive GenerateResponse
  | accepted (status : String)
  | badRequest (error : String)
deriving DecidableEq, Repr

def validTones : List String := ["informative", "dramatic", "motivational", "neutral"]

/-- The validation chain of router.post on /generate. A created job starts in
status QUEUED (inMemoryQueue.createJob + enqueue). -/
def postGenerate (body : GenerateBody) : GenerateResponse :=
  match body.topic with
  | none => .badRequest "Topic is required"
  | some t =>
    if jsTrim t = "" then .badRequest "Topic is required"
    else
      if !body.duration_seconds.truthy || jsLtNum body.duration_seconds.toNumber 20
          || jsGtNum body.duration_seconds.toNumber 60 then
        .badRequest "Duration must be between 20 and 60 seconds"
      else
        match body.tone with
          | none => .badRequest ("Tone must be one of: " ++ String.intercalate ", " validTones)
          | some tn =>
            if validTones.contains tn then .accepted "QUEUED"
            else .badRequest ("Tone must be one of: " ++ String.intercalate ", " validTones)

end Routes

/-! ## Script quality gate (src/backend/src/services/qualityControlService.js)

The four HOOK_PATTERNS are tested with RegExp.prototype.test (unanchored
search, case-insensitive). The matchers below implement exactly those four
regexes on the lower-cased string: a dot matches any character except a line
terminator, plus is at-least-one with backtracking, and test searches every
starting position. -/

namespace QCS

/-- A regex dot: any character but a line terminator (JS semantics). -/
def noNl (c : Char) : Bool :=
  !(c = '\n' || c = '\r' || c = Char.ofNat 0x2028 || c = Char.ofNat 0x2029)

/-- Match dot-star then the continuation k (used to implement dot-plus). -/
def dotStarThen (k : List Char → Bool) : List Char → Bool
  | [] => k []
  | c :: r => k (c :: r) || (noNl c && dotStarThen k r)

/-- Match dot-plus then the continuation k. -/
def dotPlusThen (k : List Char → Bool) : List Char → Bool
  | [] => false
  | c :: r => noNl c && dotStarThen k r

/-- Unanchored search: try the matcher at every suffix. -/
def searchAny (m : List Char → Bool) : List Char → Bool
  | [] => m []
  | c :: r => m (c :: r) || searchAny m r

/-- Dot-plus with nothing after it: one non-terminator character suffices. -/
def dotPlusEnd : List Char → Bool := dotPlusThen (fun _ => true)

/-- Match a literal then continue with k. -/
def litThen (lit : String) (k : List Char → Bool) (l : List Char) : Bool :=
  lit.data.isPrefixOf l && k (l.drop lit.data.length)

/-- Pattern 1 (Belief Reversal), matched at the current position:
(most|many|some) (people|thinkers|experts) think .+, but .+ -/
def p1Here (l : List Char) : Bool :=
  ["most", "many", "some"].any fun w1 =>
    ["people", "thinkers", "experts"].any fun w2 =>
      litThen (w1 ++ " " ++ w2 ++ " think ")
        (dotPlusThen (litThen ", but " dotPlusEnd)) l

/-- Pattern 2 (Suppressed Truth), matched at the current position:
nobody (tells|told|is telling) you this about .+ -/
def p2Here (l : List Char) : Bool :=
  ["tells", "told", "is telling"].any fun v =>
    litThen ("nobody " ++ v ++ " you this about ") dotPlusEnd l

/-- Pattern 3 (Counterintuitive Claim), matched at the current position:
this sounds wrong, but .+ -/
def p3Here (l : List Char) : Bool :=
  litThen "this sounds wrong, but " dotPlusEnd l

/-- Pattern 4 (Brutal Honesty), matched at the current position:
.+ (isnت|is not) the problem. .+ is.  (apostrophe written via apos; the two
dots of the regex are escaped literals). -/
def p4Here (l : List Char) : Bool :=
  dotPlusThen
    (fun r =>
      litThen (" isn" ++ String.singleton apos ++ "t the problem. ")
        (dotPlusThen (litThen " is." (fun _ => true))) r ||
      litThen " is not the problem. "
        (dotPlusThen (litThen " is." (fun _ => true))) r) l

/-- HOOK_PATTERNS.some(p.test(hook)): case-insensitive unanchored search of
the four curiosity patterns. -/
def matchesHookPattern (s : String) : Bool :=
  let l := (jsToLower s).data
  searchAny p1Here l || searchAny p2Here l || searchAny p3Here l || searchAny p4Here l

/-- The BANNED_HOOK_PHRASES list of the constructor. -/
def bannedHookPhrases : List String :=
  ["did you know", "in this video",
   "let" ++ String.singleton apos ++ "s talk about",
   "you won" ++ String.singleton apos ++ "t believe"]

/-- A scene of a script (keywords are not read by validateScript). -/
structure Scene where
  text : String
deriving DecidableEq, Repr

/-- A script as seen by validateScript: optional hook/ending fields (the
worker passes scripts that only carry scenes) plus the scenes array. -/
structure Script where
  hook : Option String := none
  ending : Option String := none
  scenes : List Scene
deriving DecidableEq, Repr

/-- script.hook or scenes[0]?.text, with JS truthiness on script.hook. -/
def hookOf (s : Script) : Option String :=
  match s.hook with
  | some h => if h = "" then (s.scenes.head?).map (·.text) else some h
  | none => (s.scenes.head?).map (·.text)

/-- script.ending or scenes[scenes.length-1]?.text. -/
def endingOf (s : Script) : Option String :=
  match s.ending with
  | some e => if e = "" then (s.scenes.getLast?).map (·.text) else some e
  | none => (s.scenes.getLast?).map (·.text)

/-- QualityControlService.validateScript: word-count gate on the hook (split
on whitespace runs, counting pieces), banned-phrase gate, curiosity-pattern
gate, and word-count gate on the ending. Returns (isValid, errors). -/
def validateScript (s : Script) : Bool × List String :=
  match hookOf s with
  | none => (false, ["No hook found"])
  | some hook =>
    if hook = "" then (false, ["No hook found"])
    else
      let hookLower := jsToLower hook
      let hookWords := (jsSplitWs hook).length
      let e1 := if hookWords > 12 then
          ["Hook too long (" ++ toString hookWords ++ " words). Max 12."] else []
      let e2 := (bannedHookPhrases.filter (fun p => strIncludes hookLower p)).map
          (fun p => "Hook contains banned phrase: " ++ p)
      let e3 := if matchesHookPattern hook then [] else
          ["Hook lacks required curiosity structure (Belief Reversal, etc.)"]
      let e4 :=
        match endingOf s with
        | none => []
        | some ending =>
          if ending = "" then []
          else
            let endingWords := (jsSplitWs ending).length
            if endingWords > 8 then
              ["Ending too long (" ++ toString endingWords ++ " words). Max 8."] else []
      let errors := e1 ++ e2 ++ e3 ++ e4
      (errors.isEmpty, errors)

/-- The number of whitespace-separated words of a string in the plain sense
used by the specification: nonempty pieces only. -/
def wordCount (s : String) : ℕ := ((jsSplitWs s).filter (fun w => !(w = ""))).length

end QCS

/-! ## Visual gate of the scene processor
(QualityControlService.validateVisuals) -/

namespace QCS

/-- A clip as validateVisuals reads it. The clips produced by
VisualService.generateTimeline carry start_ms and end_ms but no durationMs
or endTimeMs property, so those two reads are undefined there (none). -/
structure VisualGateClip where
  start_ms : ℤ := 0
  end_ms : ℤ := 0
  durationMs : Option ℤ := none
  endTimeMs : Option ℤ := none
deriving DecidableEq, Repr

/-- clip.durationMs > 2500 with JS semantics: a comparison against undefined
is false. -/
def durTooLong (c : VisualGateClip) : Bool :=
  match c.durationMs with | some d => d > 2500 | none => false

/-- clip.durationMs < 800 with JS semantics on undefined. -/
def durTooShort (c : VisualGateClip) : Bool :=
  match c.durationMs with | some d => d < 800 | none => false

/-- QualityControlService.validateVisuals: per-clip duration checks on the
durationMs property and an average change-frequency check on the last clip
endTimeMs property (undefined / NaN comparisons are false in JS). -/
def validateVisuals (timeline : List VisualGateClip) : Bool × List String :=
  let clipErrors := timeline.enum.flatMap fun p =>
    (if durTooLong p.2 then ["Clip " ++ toString (p.1 + 1) ++ " too long. Max 2.5s."] else []) ++
    (if durTooShort p.2 then ["Clip " ++ toString (p.1 + 1) ++ " too short. Min 0.8s."] else [])
  let freqErrors :=
    match timeline.getLast? with
    | none => []
    | some lastClip =>
      match lastClip.endTimeMs with
      | none => []
      | some v =>
        if (v : ℚ) / timeline.length > 3000 then ["Visual energy too low. Max 3s."] else []
  let errors := clipErrors ++ freqErrors
  (errors.isEmpty, errors)

end QCS

/-! ## LLM oracle adapter (src/backend/src/services/llmService.js)

The Gemini call is an external oracle; it is injected as a function from the
call number to an outcome. Time (throttling, backoff sleeps) does not affect
control flow and is not modelled. The for-loop of _callModel is modelled one
iteration per unit of fuel; running out of fuel is reported as a distinct
outcome, so unbounded runs are observable at every finite depth. -/

namespace LLMService

/-- One oracle outcome: a response text, or an error carrying an HTTP status
(none models a network error without status). -/
inductive OracleOutcome
  | ok (text : String)
  | err (status : Option ℕ)
deriving DecidableEq, Repr

/-- Key-rotation state: the loaded API keys and the current index. -/
structure Keys where
  apiKeys : List String
  currentKeyIdx : ℕ
deriving DecidableEq, Repr

/-- LLMService._rotateKey: with at most one key do nothing and report false,
else advance the index cyclically and report true. -/
def rotateKey (k : Keys) : Bool × Keys :=
  if k.apiKeys.length ≤ 1 then (false, k)
  else (true, { k with currentKeyIdx := (k.currentKeyIdx + 1) % k.apiKeys.length })

/-- Result of running the retry loop for a bounded number of iterations. -/
inductive CallResult
  | success (text : String)
  | thrown (status : Option ℕ)
  | thrownNull
  | running
deriving DecidableEq, Repr

/-- The for-loop of LLMService._callModel. attempt is the loop counter (an
integer: the 429 branch decrements it and the loop increment restores it, so
a 429-driven rotation retries at the same attempt). callIdx numbers the
oracle calls. lastError holds the last caught error status. -/
def callModelLoop (oracle : ℕ → OracleOutcome) (retries : ℤ) :
    ℕ → Keys → ℤ → Option (Option ℕ) → ℕ → CallResult
  | _, _, attempt, lastError, 0 =>
    -- out of fuel: if the loop would have exited, report the throw of
    -- lastError, else the loop is still running
    if attempt < retries then .running
    else match lastError with
      | some e => .thrown e
      | none => .thrownNull
  | callIdx, keys, attempt, lastError, fuel + 1 =>
    if attempt < retries then
      match oracle callIdx with
      | .ok text => .success text
      | .err status =>
        let lastE : Option (Option ℕ) := some status
        let nonRetryable4xx : Bool :=
          match status with
          | some s => 400 ≤ s && s < 500 && s ≠ 429
          | none => false
        if nonRetryable4xx then .thrown status
        else if status = some 429 ∨ status = some 503 ∨ status = none ∨ status = some 0 then
          if status = some 429 then
            let r := rotateKey keys
            if r.1 then
              -- attempt-- then the loop increment: attempt is unchanged
              callModelLoop oracle retries (callIdx + 1) r.2 attempt lastE fuel
            else
              callModelLoop oracle retries (callIdx + 1) keys (attempt + 1) lastE fuel
          else
            callModelLoop oracle retries (callIdx + 1) keys (attempt + 1) lastE fuel
        else .thrown status
    else
      match lastError with
      | some e => .thrown e
      | none => .thrownNull

end LLMService

/-! ## Stock provider and asset cache
(src/backend/src/services/stockProvider.js, assetCache) -/

/-- A stock asset (the tags are only consulted by the mock search, which is
subsumed by the injected search function; the url drives only file download
side effects). -/
structure Asset where
  id : String
  provider : String
deriving DecidableEq, Repr

namespace StockProvider

/-- The MOCK_DB table (ids and provider; tags/urls carry no behaviour needed
by the claims). -/
def MOCK_DB : List Asset :=
  [⟨"mock_fin_1", "MockStock"⟩, ⟨"mock_fin_2", "MockStock"⟩, ⟨"mock_fin_3", "MockStock"⟩,
   ⟨"mock_fin_4", "MockStock"⟩, ⟨"mock_fin_5", "MockStock"⟩,
   ⟨"mock_tech_1", "MockStock"⟩, ⟨"mock_tech_2", "MockStock"⟩, ⟨"mock_tech_3", "MockStock"⟩,
   ⟨"mock_tech_4", "MockStock"⟩, ⟨"mock_tech_5", "MockStock"⟩,
   ⟨"mock_nat_1", "MockStock"⟩, ⟨"mock_nat_2", "MockStock"⟩, ⟨"mock_nat_3", "MockStock"⟩,
   ⟨"mock_nat_4", "MockStock"⟩, ⟨"mock_nat_5", "MockStock"⟩,
   ⟨"mock_broll_1", "MockStock"⟩, ⟨"mock_broll_2", "MockStock"⟩, ⟨"mock_broll_3", "MockStock"⟩]

/-- StockProvider.getAllUnusedAssets: the MOCK_DB entries whose id is not in
the given used set. -/
def getAllUnusedAssets (usedIds : List String) : List Asset :=
  MOCK_DB.filter (fun a => !(usedIds.contains a.id))

/-- StockProvider.getFallbacks: the whole MOCK_DB. -/
def getFallbacks : List Asset := MOCK_DB

end StockProvider

/-! ## Visual service (src/backend/src/services/visualService.js) -/

namespace VisualService

/-- The clip transform assigned by _generateTransform. -/
structure Transform where
  zoom : ℚ
  pan : String
deriving DecidableEq, Repr

/-- One entry of the visual timeline. -/
structure VClip where
  clip_id : String
  source : String
  file_path : String
  start_ms : ℤ
  end_ms : ℤ
  keyword : String
  transform : Transform
deriving DecidableEq, Repr

/-- The environment of a run: the stock-provider search (an external HTTP
adapter with a deterministic mock fallback, injected as a total function) and
the Math.random stream, one natural number drawn per call; a draw used as
floor(random() times k) is taken modulo k and a draw used as the test
random() greater than 0.5 is taken modulo 2. -/
structure Env where
  searchFn : String → List Asset
  rng : ℕ → ℕ

/-- Mutable state threaded through a run: the keyword cache of assetCache
(keyed by lower-cased keyword) and the position in the random stream. -/
structure RunState where
  cache : List (String × List Asset)
  rngIdx : ℕ
deriving Repr

/-- assetCache.get: null for a falsy keyword, else lookup the lower-cased
keyword. -/
def cacheGet (st : RunState) (keyword : String) : Option (List Asset) :=
  if keyword = "" then none
  else (st.cache.find? (fun p => p.1 = jsToLower keyword)).map (·.2)

/-- assetCache.set on the lower-cased keyword (no-op for falsy keyword). -/
def cacheSet (st : RunState) (keyword : String) (assets : List Asset) : RunState :=
  if keyword = "" then st
  else
    let key := jsToLower keyword
    if (st.cache.find? (fun p => p.1 = key)).isSome then
      { st with cache := st.cache.map (fun p => if p.1 = key then (key, assets) else p) }
    else
      { st with cache := st.cache ++ [(key, assets)] }

/-- Draw the next value of the random stream. -/
def draw (env : Env) (st : RunState) : ℕ × RunState :=
  (env.rng st.rngIdx, { st with rngIdx := st.rngIdx + 1 })

/-- The pre-fetch stage: for each keyword (first-occurrence deduplication, as
the JS Set), search and fill the cache when the keyword is not cached. -/
def prefetch (env : Env) : List String → RunState → RunState
  | [], st => st
  | kw :: rest, st =>
    let st' := if (cacheGet st kw).isSome then st else cacheSet st kw (env.searchFn kw)
    prefetch env rest st'

/-- First-occurrence deduplication of a list (the JS spread of a Set). -/
def jsUniq : List String → List String :=
  go []
where
  go (seen : List String) : List String → List String
    | [] => []
    | x :: xs => if seen.contains x then go seen xs else x :: go (x :: seen) xs

/-- VisualService._selectUniqueAsset: layer 1 tries the cached / searched
keyword assets preferring an unused id; layer 2 the provider fallbacks;
layer 3 a random unused asset of the whole database; then, only with
allowReuse, any asset avoiding the immediately previous clip id. Returns the
selected asset (none: complete failure) and the updated state. -/
def selectUniqueAsset (env : Env) (st : RunState) (keyword : String)
    (usedIds : List String) (allowReuse : Bool) (lastId : Option String) :
    Option Asset × RunState :=
  let l1 :=
    match cacheGet st keyword with
    | some assets => (assets, st)
    | none =>
      let assets := env.searchFn keyword
      (assets, cacheSet st keyword assets)
  let assets := l1.1
  let st := l1.2
  match assets.find? (fun a => !(usedIds.contains a.id)) with
  | some candidate => (some candidate, st)
  | none =>
    match StockProvider.getFallbacks.find? (fun a => !(usedIds.contains a.id)) with
    | some candidate => (some candidate, st)
    | none =>
      let allAssets := StockProvider.getAllUnusedAssets usedIds
      if allAssets.length > 0 then
        let d := draw env st
        (allAssets.get? (d.1 % allAssets.length), d.2)
      else if allowReuse then
        let all := StockProvider.getAllUnusedAssets []
        let reuseCandidate :=
          match lastId with
          | some lid => match all.find? (fun a => !(a.id = lid)) with
                        | some a => some a
                        | none => all.head?
          | none => all.head?
        (reuseCandidate, st)
      else (none, st)

/-- The secondary recovery loop of generateTimeline: try every (unique)
keyword in order until a selection succeeds. -/
def selectWithRecovery (env : Env) (st : RunState) (keyword : String)
    (uniqueKeywords : List String) (usedIds : List String) (allowReuse : Bool)
    (lastId : Option String) : Option Asset × RunState :=
  let first := selectUniqueAsset env st keyword usedIds allowReuse lastId
  match first.1 with
  | some a => (some a, first.2)
  | none => go uniqueKeywords first.2
where
  go : List String → RunState → Option Asset × RunState
    | [], st => (none, st)
    | kw :: rest, st =>
      let r := selectUniqueAsset env st kw usedIds allowReuse lastId
      match r.1 with
      | some a => (some a, r.2)
      | none => go rest r.2

/-- VisualService._generateTransform: each Math.random call consumes one
stream value; the zoom expression is evaluated before the pan expression. -/
def generateTransform (env : Env) (st : RunState) : Transform × RunState :=
  -- zoom values 1.0, 1.05, 1.1 (written as exact rationals)
  let zooms : List ℚ := [1, mkRat 21 20, mkRat 11 10]
  let pans : List String := ["none", "left", "right", "up", "down"]
  let d1 := draw env st
  let afterZoom :
      ℚ × RunState :=
    if d1.1 % 2 = 1 then
      let d2 := draw env d1.2
      ((zooms.get? (d2.1 % 3)).getD 1, d2.2)
    else (1, d1.2)
  let d3 := draw env afterZoom.2
  let afterPan :
      String × RunState :=
    if d3.1 % 2 = 1 then
      let d4 := draw env d3.2
      ((pans.get? (d4.1 % 5)).getD "none", d4.2)
    else ("none", d3.2)
  (⟨afterZoom.1, afterPan.1⟩, afterPan.2)

/-- VisualService._ensureLocalAsset reduced to its observable value, the
local clip path (download / placeholder-copy side effects are file I/O). -/
def localAssetPath (a : Asset) : String := "assets/clips/" ++ a.id ++ ".mp4"

/-- The clip-duration computation of one loop iteration: the random duration
in [minClipMs, 3000], capped to the remaining time, then the tail lookahead
(absorb a remainder under 800 ms, or shrink so exactly 800 ms remain). -/
def pickDuration (minClipMs remaining : ℤ) (r : ℕ) : ℤ :=
  let clipDuration := minClipMs + ((r : ℤ) % (3000 - minClipMs + 1))
  let clipDuration := if clipDuration > remaining then remaining else clipDuration
  let nextRemaining := remaining - clipDuration
  if 0 < nextRemaining ∧ nextRemaining < 800 then
    if remaining ≤ 3000 then remaining else remaining - 800
  else clipDuration

/-- The timeline generation loop. One unit of fuel per iteration; each
iteration advances the cursor by at least one (800 ms in the reachable
states), so fuel of the order of the total duration suffices and fuel
exhaustion is reported as an error. -/
def timelineLoop (env : Env) (keywords uniqueKeywords : List String)
    (totalDurationMs minClipMs : ℤ) (allowReuse : Bool) :
    ℕ → ℤ → ℕ → List String → List VClip → RunState → Except String (List VClip)
  | 0, currentTimeMs, _, _, timeline, _ =>
    if currentTimeMs < totalDurationMs then .error "fuel exhausted" else .ok timeline
  | fuel + 1, currentTimeMs, keywordIdx, usedIds, timeline, st =>
    if currentTimeMs < totalDurationMs then
      let d := draw env st
      let clipDuration := pickDuration minClipMs (totalDurationMs - currentTimeMs) d.1
      let currentKeyword := (keywords.get? (keywordIdx % keywords.length)).getD ""
      let lastId := (timeline.getLast?).map (·.clip_id)
      let sel := selectWithRecovery env d.2 currentKeyword uniqueKeywords usedIds allowReuse lastId
      match sel.1 with
      | none => .error "CRITICAL: Ran out of unique visual assets."
      | some asset =>
        let usedIds' := usedIds ++ [asset.id]
        let t := generateTransform env sel.2
        let clip : VClip :=
          { clip_id := asset.id,
            source := asset.provider,
            file_path := localAssetPath asset,
            start_ms := currentTimeMs,
            end_ms := currentTimeMs + clipDuration,
            keyword := currentKeyword,
            transform := t.1 }
        timelineLoop env keywords uniqueKeywords totalDurationMs minClipMs allowReuse
          fuel (currentTimeMs + clipDuration) (keywordIdx + 1) usedIds'
          (timeline ++ [clip]) t.2
    else .ok timeline

/-- VisualService.generateTimeline: pre-fetch, availability pre-check (the
database always holds the 18 mock assets), reuse decision, minimum clip
duration, then the generation loop from cursor 0. -/
def generateTimeline (env : Env) (keywords : List String) (totalDurationMs : ℤ)
    (st : RunState) : Except String (List VClip) :=
  let uniqueKeywords := jsUniq keywords
  let st := prefetch env uniqueKeywords st
  let totalUniqueAvailable := (StockProvider.getAllUnusedAssets []).length
  if totalUniqueAvailable = 0 then .error "CRITICAL: No assets available in database."
  else
    let allowReuseIfNeeded := decide ((totalUniqueAvailable : ℤ) * 3000 < totalDurationMs)
    let desiredMinClipDuration := jsCeilDiv totalDurationMs (max 1 (totalUniqueAvailable : ℤ))
    let minClipMs := max 800 (min desiredMinClipDuration 3000)
    timelineLoop env keywords uniqueKeywords totalDurationMs minClipMs allowReuseIfNeeded
      (totalDurationMs.toNat + 1) 0 0 [] [] st

end VisualService

/-! ## Editing rules engine (src/unnamed/part_004, EditingService) -/

namespace EditingService

/-- A working segment of the plan construction (the _words and _caption
carry-alongs of the source are the words and caption fields). -/
structure WorkSeg where
  start_ms : ℤ
  end_ms : ℤ
  caption_id : String
  caption : Option Caption
  words : List WordStamp := []
deriving DecidableEq, Repr

/-- A plan entry before the final projection (still carrying _words and
_caption). -/
structure PlanEntry where
  start_ms : ℤ
  end_ms : ℤ
  clip_id : String
  zoom : ℚ
  pan : String
  caption_id : String
  reason : String
  words : List WordStamp
  caption : Option Caption
deriving DecidableEq, Repr

/-- A segment of the final edit plan (the strict output schema). -/
structure EditSegment where
  start_ms : ℤ
  end_ms : ℤ
  clip_id : String
  zoom : ℚ
  pan : String
  caption_id : String
  reason : String
deriving DecidableEq, Repr

/-- Outcome of generateEditPlan when no exception is thrown. -/
inductive EditResult
  | invalid (errors : List String)
  | valid (plan : List EditSegment)
deriving DecidableEq, Repr

def MAX_SEGMENT_MS : ℤ := 3000
def PATTERN_INTERVAL_MS : ℤ := 2500
def BASE_ZOOM : ℚ := 1
-- the emphasis zoom 1.05, written as the exact rational 21/20
def EMPHASIS_ZOOM : ℚ := mkRat 21 20
def PANS : List String := ["none", "left", "right", "up", "down"]

/-- EditingService._wordsInRange. -/
def wordsInRange (words : List WordStamp) (s e : ℤ) : List WordStamp :=
  words.filter (fun w => decide (w.start_ms ≥ s) && decide (w.end_ms ≤ e))

/-- EditingService._findVisualForTime. -/
def findVisualForTime (visuals : List VisualService.VClip) (t : ℤ) :
    Option VisualService.VClip :=
  visuals.find? (fun v => decide (v.start_ms ≤ t) && decide (v.end_ms > t))

/-- The splitting while-loop of _splitAtWordBoundaries for one long segment
(one unit of fuel per iteration; the cursor strictly advances whenever no
exception is thrown, so fuel of the order of the segment length suffices). -/
def splitLoop (words : List WordStamp) (s : WorkSeg) :
    ℕ → ℤ → Except String (List WorkSeg)
  | 0, cursor =>
    if cursor < s.end_ms then .error "fuel exhausted" else .ok []
  | fuel + 1, cursor =>
    if cursor < s.end_ms then
      let target := min (cursor + MAX_SEGMENT_MS) s.end_ms
      let candidate := wordsInRange words cursor (target + 1)
      let sliceEnd :=
        match candidate.getLast? with
        | some w => min w.end_ms s.end_ms
        | none => target
      if sliceEnd ≤ cursor then
        .error "Cannot split without cutting mid-word"
      else
        let seg : WorkSeg :=
          { start_ms := cursor, end_ms := sliceEnd, caption_id := s.caption_id,
            caption := s.caption, words := wordsInRange words cursor sliceEnd }
        (splitLoop words s fuel sliceEnd).map (fun rest => seg :: rest)
    else .ok []

/-- EditingService._splitAtWordBoundaries. -/
def splitAtWordBoundaries (segments : List WorkSeg) (words : List WordStamp) :
    Except String (List WorkSeg) :=
  segments.foldlM
    (fun acc s =>
      if s.end_ms - s.start_ms ≤ MAX_SEGMENT_MS then
        .ok (acc ++ [{ s with words := wordsInRange words s.start_ms s.end_ms }])
      else
        (splitLoop words s ((s.end_ms - s.start_ms).toNat + 1) s.start_ms).map
          (fun segs => acc ++ segs))
    []

/-- The per-segment body of _isolateEmphasis: emphasised words become
one-word segments, the remainder between them is retained. -/
def isolateSeg (allWords : List WordStamp) (s : WorkSeg) : List WorkSeg :=
  if (s.words.filter (·.emphasis)).isEmpty then [s]
  else
    let step :=
      s.words.foldl
        (fun (acc : List WorkSeg × ℤ) w =>
          if w.emphasis then
            let before :=
              if w.start_ms > acc.2 then
                [{ start_ms := acc.2, end_ms := w.start_ms, caption_id := s.caption_id,
                   caption := s.caption,
                   words := wordsInRange allWords acc.2 w.start_ms : WorkSeg }]
              else []
            (acc.1 ++ before ++
               [{ start_ms := w.start_ms, end_ms := w.end_ms, caption_id := s.caption_id,
                  caption := s.caption, words := [w] }], w.end_ms)
          else acc)
        ([], s.start_ms)
    step.1 ++
      (if step.2 < s.end_ms then
        [{ start_ms := step.2, end_ms := s.end_ms, caption_id := s.caption_id,
           caption := s.caption, words := wordsInRange allWords step.2 s.end_ms }]
      else [])

/-- EditingService._isolateEmphasis. -/
def isolateEmphasis (segments : List WorkSeg) (words : List WordStamp) : List WorkSeg :=
  segments.flatMap (isolateSeg words)

/-- Stable sort by start_ms (the JS numeric comparator sort is stable, so it
is embedded as a stable insertion sort). -/
def sortByStart (segments : List WorkSeg) : List WorkSeg :=
  segments.insertionSort (fun a b => a.start_ms ≤ b.start_ms)

/-- The gap-filling while-loop: silence chunks of at most MAX_SEGMENT_MS from
gapStart to gapEnd, each requiring a covering visual clip. Returns the filler
segments and the next silence index. -/
def fillChunks (visuals : List VisualService.VClip) (tag : String) :
    ℕ → ℤ → ℤ → ℕ → Except String (List WorkSeg × ℕ)
  | 0, gapStart, gapEnd, silenceIdx =>
    if gapStart < gapEnd then .error "fuel exhausted" else .ok ([], silenceIdx)
  | fuel + 1, gapStart, gapEnd, silenceIdx =>
    if gapStart < gapEnd then
      let chunkEnd := min (gapStart + MAX_SEGMENT_MS) gapEnd
      match findVisualForTime visuals gapStart with
      | none => .error "No visual to cover silent gap"
      | some _ =>
        let filler : WorkSeg :=
          { start_ms := gapStart, end_ms := chunkEnd,
            caption_id := tag ++ toString silenceIdx, caption := none, words := [] }
        (fillChunks visuals tag fuel chunkEnd gapEnd (silenceIdx + 1)).map
          (fun r => (filler :: r.1, r.2))
    else .ok ([], silenceIdx)

/-- EditingService._fillGapsDeterministically: sort, then close every gap
beyond the 20 ms tolerance with silence fillers, reject overlaps beyond the
tolerance, and append trailing silence up to the total duration. -/
def fillGapsDeterministically (segments : List WorkSeg)
    (visuals : List VisualService.VClip) (totalDuration : ℤ) :
    Except String (List WorkSeg) := do
  let sorted := sortByStart segments
  let step ← sorted.foldlM
    (fun (acc : List WorkSeg × ℤ × ℕ) s => do
      let out := acc.1
      let expected := acc.2.1
      let silenceIdx := acc.2.2
      if s.start_ms > expected + 20 then
        let r ← fillChunks visuals "silence_" ((s.start_ms - expected).toNat + 1)
          expected s.start_ms silenceIdx
        pure (out ++ r.1 ++ [s], s.end_ms, r.2)
      else if s.start_ms < expected - 20 then
        .error "Overlap detected"
      else
        pure (out ++ [s], s.end_ms, silenceIdx))
    ([], 0, 0)
  let expected := step.2.1
  if expected < totalDuration - 20 then
    let r ← fillChunks visuals "silence_tail_" ((totalDuration - expected).toNat + 1)
      expected totalDuration 0
    pure (step.1 ++ r.1)
  else
    pure step.1

/-- EditingService._deterministicPan: index 1 to 4 of PANS from the char-code
sum of the clip id. -/
def deterministicPan (clipId : String) : String :=
  let s := clipId.data.foldl (fun a c => a + c.toNat) 0
  (PANS.get? (s % (PANS.length - 1) + 1)).getD "none"

/-- The emphasis-zoom pass over a plan entry: an exact one-word emphasised
segment gets the emphasis zoom; a segment whose caption has emphasis indices
gets it as well when still at base zoom. -/
def applyEmphasisZoom (e : PlanEntry) : PlanEntry :=
  let e :=
    match e.words with
    | [w] => if w.emphasis then { e with zoom := EMPHASIS_ZOOM, reason := "emphasis" } else e
    | _ => e
  let capEmph :=
    match e.caption with
    | some c => !c.emphasis_indices.isEmpty
    | none => false
  if capEmph then
    if e.zoom = BASE_ZOOM then { e with zoom := EMPHASIS_ZOOM, reason := "emphasis" }
    else e
  else e

/-- planEntries.find of the pattern-interrupt pass, together with the
mutation of the found entry: the first non-emphasis entry intersecting the
window gets the deterministic pan and the pattern_interrupt reason. -/
def applyPatternInterrupt : List PlanEntry → ℤ → ℤ → Option (List PlanEntry)
  | [], _, _ => none
  | p :: rest, windowStart, windowEnd =>
    if p.start_ms < windowEnd ∧ p.end_ms > windowStart ∧ p.reason ≠ "emphasis" then
      some ({ p with pan := deterministicPan p.clip_id, reason := "pattern_interrupt" } :: rest)
    else
      (applyPatternInterrupt rest windowStart windowEnd).map (p :: ·)

/-- The number of pattern-interrupt windows of a total duration (the for-loop
runs for windowStart = 0, 2500, ... below the total). -/
def numWindows (total : ℤ) : ℕ := ((total + PATTERN_INTERVAL_MS - 1) / PATTERN_INTERVAL_MS).toNat

/-- The window list [k times 2500, min((k+1) times 2500, total)). -/
def windowsList (total : ℤ) : List (ℤ × ℤ) :=
  (List.range (numWindows total)).map
    (fun k : ℕ => ((k : ℤ) * PATTERN_INTERVAL_MS, min (((k : ℤ) + 1) * PATTERN_INTERVAL_MS) total))

/-- The pattern-interrupt for-loop over all windows; a window without a
candidate aborts with the invalid result of the source. -/
def patternLoop : List (ℤ × ℤ) → List PlanEntry → Option (List PlanEntry)
  | [], entries => some entries
  | w :: rest, entries =>
    match applyPatternInterrupt entries w.1 w.2 with
    | none => none
    | some entries' => patternLoop rest entries'

/-- The length and zoom-range checks of _validate (first loop, original
order). -/
def lengthZoomErrors (plan : List PlanEntry) : List String :=
  plan.flatMap fun p =>
    (if p.end_ms - p.start_ms > MAX_SEGMENT_MS then ["Segment too long"] else []) ++
    (if p.zoom = BASE_ZOOM ∨ p.zoom = EMPHASIS_ZOOM then [] else ["Invalid zoom"])

/-- The gap/overlap fold of _validate on the sorted plan; returns the errors
and the final expected cursor. -/
def gapErrors : ℤ → List PlanEntry → List String × ℤ
  | expected, [] => ([], expected)
  | expected, p :: rest =>
    let tail := gapErrors p.end_ms rest
    ((if |p.start_ms - expected| > 20 then ["Gap/Overlap"] else []) ++ tail.1, tail.2)

/-- The zoom-without-emphasis check of _validate (last loop, sorted order). -/
def zoomReasonErrors (plan : List PlanEntry) : List String :=
  plan.flatMap fun p =>
    if p.zoom ≠ BASE_ZOOM ∧ p.reason ≠ "emphasis" then ["Zoom applied without emphasis"] else []

/-- Sort a plan by start_ms (the in-place stable sort inside _validate; the
final plan is projected from this sorted array). -/
def sortPlan (plan : List PlanEntry) : List PlanEntry :=
  plan.insertionSort (fun a b => a.start_ms ≤ b.start_ms)

/-- The final projection onto the strict output schema. -/
def project (p : PlanEntry) : EditSegment :=
  { start_ms := p.start_ms, end_ms := p.end_ms, clip_id := p.clip_id,
    zoom := p.zoom, pan := p.pan, caption_id := p.caption_id, reason := p.reason }

/-- EditingService.generateEditPlan: captions to base segments, split at word
boundaries, isolate emphasis, fill gaps, attach visuals, emphasis zoom,
pattern interrupts, final validation, projection. Thrown JS exceptions are
the Except.error channel; the isValid:false returns are EditResult.invalid. -/
def generateEditPlan (audio : AudioResult) (captions : List Caption)
    (visuals : List VisualService.VClip) : Except String EditResult := do
  let totalDuration := audio.duration_ms
  let segments0 : List WorkSeg := captions.enum.map
    (fun p => { start_ms := p.2.start_ms, end_ms := p.2.end_ms,
                caption_id := "cap_" ++ toString p.1, caption := some p.2 })
  let segments1 ← splitAtWordBoundaries segments0 audio.timestamps
  let segments2 := isolateEmphasis segments1 audio.timestamps
  let segments3 ← fillGapsDeterministically segments2 visuals totalDuration
  let planEntries0 ← segments3.mapM (fun s => do
    match findVisualForTime visuals s.start_ms with
    | none => .error "No visual clip covers time"
    | some clip =>
      pure { start_ms := s.start_ms, end_ms := s.end_ms, clip_id := clip.clip_id,
             zoom := BASE_ZOOM, pan := "none", caption_id := s.caption_id,
             reason := "cut", words := s.words, caption := s.caption : PlanEntry })
  let planEntries1 := planEntries0.map applyEmphasisZoom
  match patternLoop (windowsList totalDuration) planEntries1 with
  | none => pure (.invalid ["Pattern interrupt missing or conflicts with emphasis"])
  | some planEntries2 =>
    let e1 := lengthZoomErrors planEntries2
    let sorted := sortPlan planEntries2
    let gaps := gapErrors 0 sorted
    let e2 := gaps.1
    let e3 := if |gaps.2 - totalDuration| > 200 then ["Timeline end mismatch"] else []
    let e4 := zoomReasonErrors sorted
    let errors := e1 ++ e2 ++ e3 ++ e4
    if errors.isEmpty then pure (.valid (sorted.map project))
    else pure (.invalid errors)

end EditingService

/-! ## Statement-support predicates -/

/-- A visual timeline is contiguous from cursor c: each clip starts exactly
at the cursor and advances it to its end. -/
def contiguousFrom : ℤ → List VisualService.VClip → Prop
  | _, [] => True
  | c, clip :: rest => clip.start_ms = c ∧ contiguousFrom clip.end_ms rest

/-- The end cursor of a visual timeline: the end of the last clip, or the
initial cursor for an empty timeline. -/
def endCursorFrom (c : ℤ) (tl : List VisualService.VClip) : ℤ :=
  match tl.getLast? with
  | some clip => clip.end_ms
  | none => c

/-- An edit plan covers the total duration from the expected cursor:
each segment starts within 20 ms of the cursor, and the final cursor is
within 200 ms of the total. -/
def coversFrom (total : ℤ) : ℤ → List EditingService.EditSegment → Prop
  | expected, [] => |expected - total| ≤ 200
  | expected, s :: rest => |s.start_ms - expected| ≤ 20 ∧ coversFrom total s.end_ms rest

/-- The maximum of a list of integers, 0 for the empty list. -/
def maxEnd (l : List ℤ) : ℤ := l.foldr max 0

/-! # Theorems -/

/-! ## Claim C1: caption grouping of the four-word scenario -/

/-- Claim C1, counterexample: on the word list (a,0,300), (b,300,600),
(c,600,900), (d,900,1200) the caption grouper does NOT emit the captions
"a b c" (0,900) and "d" (900,1200) claimed by the specification: adding c to
the group (a,b) would give a 900 ms group, beyond the 800 ms bound, so the
grouper breaks before c. -/
theorem c1_grouper_counterexample :
    (CaptionService.generateTimeline
        [⟨"a", 0, 300, false⟩, ⟨"b", 300, 600, false⟩,
         ⟨"c", 600, 900, false⟩, ⟨"d", 900, 1200, false⟩]).map
        (fun c => (c.text, c.start_ms, c.end_ms)) ≠
      [("a b c", 0, 900), ("d", 900, 1200)] := by
  decide

/-- Claim C1, amended: on that word list the grouper emits exactly two
captions, "a b" spanning 0 to 600 and "c d" spanning 600 to 1200 (both
without emphasis indices). -/
theorem c1_grouper_amended :
    CaptionService.generateTimeline
        [⟨"a", 0, 300, false⟩, ⟨"b", 300, 600, false⟩,
         ⟨"c", 600, 900, false⟩, ⟨"d", 900, 1200, false⟩] =
      [⟨"a b", 0, 600, []⟩, ⟨"c d", 600, 1200, []⟩] := by
  decide

/-! ## Claim C6: the visual gate of the scene processor never fires -/

/-- Claim C6, code bug: the scene processor gates visual timelines through
QualityControlService.validateVisuals, but that validator reads the
durationMs and endTimeMs properties, which the clips produced by
VisualService.generateTimeline (carrying start_ms / end_ms) do not have; the
JS comparisons against undefined are false, so a timeline with a 100 ms clip
(far below the 800 ms bound of invariant I3) passes the gate as valid. -/
theorem c6_visual_gate_noop :
    (QCS.validateVisuals [{ start_ms := 0, end_ms := 100 }]).1 = true ∧
      (100 : ℤ) - 0 < 800 := by
  decide

/-! ## Claim C9: termination of the LLM retry loop -/

set_option maxRecDepth 4000 in
/-- Claim C9, counterexample: with two configured keys and an oracle that
answers HTTP 429 on every call, the retry loop of LLMService._callModel is
still running after 100 iterations (100 oracle calls), far beyond every bound
the claim allows (3 backoff retries plus one rotation per key cycle). -/
theorem c9_retry_counterexample :
    LLMService.callModelLoop (fun _ => .err (some 429)) 3 0 ⟨["k1", "k2"], 0⟩ 0 none 100 =
      .running := by
  decide

/-- Helper for C9: under a persistent-429 oracle and two keys, every
iteration rotates the key, decrements the attempt counter and re-increments
it, so the loop state never progresses and the loop runs at any depth. -/
theorem callModelLoop_429_two_keys (fuel callIdx idx : ℕ) (lastE : Option (Option ℕ)) :
    LLMService.callModelLoop (fun _ => .err (some 429)) 3 callIdx ⟨["k1", "k2"], idx⟩ 0 lastE fuel =
      .running := by
  induction fuel generalizing callIdx idx lastE with
  | zero => simp [LLMService.callModelLoop]
  | succ n ih =>
    simp only [LLMService.callModelLoop, LLMService.rotateKey]
    norm_num
    exact ih (callIdx + 1) ((idx + 1) % 2) (some (some 429))

/-- Claim C9, amended: the retry loop performs at most 3 backoff retries, but
a 429-triggered key rotation grants an immediate retry every time (the
attempt counter is decremented and then restored), not once per key cycle:
with two keys and a persistent-429 oracle the loop never terminates (it is
still running after any number of iterations), while with a single key the
same oracle exhausts the 3 retries and throws the last 429 error. -/
theorem c9_retry_amended :
    (∀ fuel : ℕ,
      LLMService.callModelLoop (fun _ => .err (some 429)) 3 0 ⟨["k1", "k2"], 0⟩ 0 none fuel =
        .running) ∧
    LLMService.callModelLoop (fun _ => .err (some 429)) 3 0 ⟨["k1"], 0⟩ 0 none 10 =
      .thrown (some 429) := by
  constructor
  · intro fuel
    exact callModelLoop_429_two_keys fuel 0 0 none
  · decide

/-! ## Claim C8: validation of POST /api/generate -/

/-- Claim C8, counterexample: the route never checks that duration_seconds is
an integer. A request with topic "Cats", duration_seconds 30.5 and tone
informative is accepted with 202, although the claim requires a 400 response
for every non-integer duration. -/
theorem c8_generate_counterexample :
    Routes.postGenerate ⟨some "Cats", ⟨true, some ((61 : ℚ) / 2)⟩, some "informative"⟩ =
        .accepted "QUEUED" ∧
      ¬ ∃ n : ℤ, ((61 : ℚ) / 2) = (n : ℚ) := by
  constructor
  · unfold Routes.postGenerate
    dsimp only
    rw [if_neg (show ¬jsTrim "Cats" = "" from by decide)]
    rw [if_neg (show ¬((!true || Routes.jsLtNum (some ((61 : ℚ) / 2)) 20
        || Routes.jsGtNum (some ((61 : ℚ) / 2)) 60) = true) from by
      simp only [Routes.jsLtNum, Routes.jsGtNum, Bool.not_true, Bool.false_or,
        Bool.or_eq_true, decide_eq_true_eq]
      norm_num)]
    rw [if_pos (show Routes.validTones.contains "informative" = true from by decide)]
  · rintro ⟨n, hn⟩
    have h2 : (61 : ℚ) = (n : ℚ) * 2 := by
      field_simp at hn
      linarith
    have h3 : (61 : ℤ) = n * 2 := by exact_mod_cast h2
    omega

/-- Claim C8, amended: POST /api/generate responds 202 with job_id and status
QUEUED iff the topic is a string with non-empty trim, duration_seconds is
truthy and its ToNumber coercion, whenever it is a number, lies in the
interval 20 to 60 (integrality is NOT checked, and a truthy value with NaN
coercion, such as a non-numeric string or a plain object, passes both
comparisons and is accepted), and the tone is one of the four valid tones;
every other body gets a 400 error response, a truthy NaN-coercing duration is
accepted with 202, and duration_seconds 15 yields the error text of
scenario S2. -/
theorem c8_generate_amended :
    (∀ b : Routes.GenerateBody,
      (Routes.postGenerate b = .accepted "QUEUED" ↔
        (∃ t, b.topic = some t ∧ jsTrim t ≠ "") ∧
        b.duration_seconds.truthy = true ∧
        (∀ q, b.duration_seconds.toNumber = some q → 20 ≤ q ∧ q ≤ 60) ∧
        (∃ tn, b.tone = some tn ∧ tn ∈ Routes.validTones)) ∧
      (Routes.postGenerate b = .accepted "QUEUED" ∨
        ∃ e, Routes.postGenerate b = .badRequest e)) ∧
    (Routes.postGenerate ⟨some "Cats", ⟨true, none⟩, some "informative"⟩ =
      .accepted "QUEUED") ∧
    (∀ tn, Routes.postGenerate ⟨some "The Science of Caffeine", ⟨true, some 15⟩, tn⟩ =
      .badRequest "Duration must be between 20 and 60 seconds") := by
  refine ⟨fun b => ⟨?_, ?_⟩, ?_, ?_⟩
  · obtain ⟨tp, du, tn⟩ := b
    unfold Routes.postGenerate
    dsimp only
    rcases tp with _ | t
    · exact iff_of_false (by simp) (by rintro ⟨⟨t, ht, _⟩, _⟩; exact Option.noConfusion ht)
    · dsimp only
      by_cases ht : jsTrim t = ""
      · rw [if_pos ht]
        exact iff_of_false (by simp)
          (by rintro ⟨⟨t2, ht2, hne⟩, _⟩; rw [Option.some_inj] at ht2; exact hne (ht2 ▸ ht))
      · rw [if_neg ht]
        obtain ⟨dt, dn⟩ := du
        dsimp only
        cases dt with
        | false =>
          rw [if_pos (by simp)]
          exact iff_of_false (by simp)
            (by rintro ⟨_, hdt, _, _⟩; exact Bool.noConfusion hdt)
        | true =>
          simp only [Bool.not_true, Bool.false_or]
          by_cases hbd : (Routes.jsLtNum dn 20 || Routes.jsGtNum dn 60) = true
          · rw [if_pos hbd]
            refine iff_of_false (by simp) ?_
            rintro ⟨-, -, hq, -⟩
            rcases dn with _ | q
            · simp [Routes.jsLtNum, Routes.jsGtNum] at hbd
            · obtain ⟨h1, h2⟩ := hq q rfl
              simp only [Bool.or_eq_true] at hbd
              rcases hbd with hlt | hgt
              · simp only [Routes.jsLtNum, decide_eq_true_eq] at hlt
                linarith
              · simp only [Routes.jsGtNum, decide_eq_true_eq] at hgt
                linarith
          · rw [if_neg hbd]
            have hdur : ∀ q, dn = some q → 20 ≤ q ∧ q ≤ 60 := by
              intro q hq
              subst hq
              simp only [Bool.or_eq_true, Routes.jsLtNum, Routes.jsGtNum,
                decide_eq_true_eq, not_or] at hbd
              exact ⟨not_lt.mp hbd.1, not_lt.mp hbd.2⟩
            rcases tn with _ | tone
            · exact iff_of_false (by simp)
                (by rintro ⟨_, _, _, ⟨tn2, htn2, _⟩⟩; exact Option.noConfusion htn2)
            · dsimp only
              by_cases htc : Routes.validTones.contains tone = true
              · rw [if_pos htc]
                refine iff_of_true rfl
                  ⟨⟨t, rfl, ht⟩, ?_, hdur, ⟨tone, rfl, List.elem_iff.mp htc⟩⟩
                trivial
              · rw [if_neg htc]
                refine iff_of_false (by simp) ?_
                rintro ⟨_, _, _, ⟨tn2, htn2, hmem⟩⟩
                rw [Option.some_inj] at htn2
                subst htn2
                exact htc (List.elem_iff.mpr hmem)
  · obtain ⟨tp, du, tn⟩ := b
    unfold Routes.postGenerate
    dsimp only
    rcases tp with _ | t
    · exact Or.inr ⟨_, rfl⟩
    · dsimp only
      by_cases ht : jsTrim t = ""
      · rw [if_pos ht]; exact Or.inr ⟨_, rfl⟩
      · rw [if_neg ht]
        by_cases hbd : (!du.truthy || Routes.jsLtNum du.toNumber 20
            || Routes.jsGtNum du.toNumber 60) = true
        · rw [if_pos hbd]; exact Or.inr ⟨_, rfl⟩
        · rw [if_neg hbd]
          rcases tn with _ | tone
          · exact Or.inr ⟨_, rfl⟩
          · dsimp only
            by_cases htc : Routes.validTones.contains tone = true
            · rw [if_pos htc]; exact Or.inl rfl
            · rw [if_neg htc]; exact Or.inr ⟨_, rfl⟩
  · decide
  · intro tn
    unfold Routes.postGenerate
    dsimp only
    rw [if_neg (show ¬jsTrim "The Science of Caffeine" = "" from by decide)]
    rw [if_pos (show (!true || Routes.jsLtNum (some (15 : ℚ)) 20
        || Routes.jsGtNum (some (15 : ℚ)) 60) = true from by decide)]

/-! ## Claim C4: the script quality gate -/

/-- Helper: the last element of a cons cell. -/
theorem getLast?_cons_eq (s0 : QCS.Scene) (rest : List QCS.Scene) :
    (s0 :: rest).getLast? = some (rest.getLastD s0) := by
  induction rest generalizing s0 with
  | nil => rfl
  | cons r rs ih => rw [List.getLast?_cons_cons, ih r, List.getLastD_cons]

/-- Claim C4, counterexample: validateScript counts hook words as the pieces
of split on whitespace runs, so leading and trailing whitespace each add an
empty piece. This hook has 12 whitespace-separated words, no banned phrase,
matches curiosity pattern P1, and the ending has 1 word, so the claim demands
isValid = true; the gate counts 14 pieces and rejects the script. -/
theorem c4_script_gate_counterexample :
    (QCS.validateScript ⟨none, none,
        [⟨" most people think coffee wakes you up, but it blocks your adenosine "⟩,
         ⟨"Stop."⟩]⟩).1 = false ∧
      QCS.wordCount " most people think coffee wakes you up, but it blocks your adenosine " ≤ 12 ∧
      (∀ p ∈ QCS.bannedHookPhrases,
        strIncludes
          (jsToLower " most people think coffee wakes you up, but it blocks your adenosine ")
          p = false) ∧
      QCS.matchesHookPattern
          " most people think coffee wakes you up, but it blocks your adenosine " = true ∧
      QCS.wordCount "Stop." ≤ 8 := by
  decide

/-- Claim C4, amended: for a script whose hook and ending come from a
non-empty scenes array, the gate accepts iff the hook splits into at most 12
pieces on whitespace runs (empty pieces from leading/trailing whitespace
count), the lower-cased hook contains no banned phrase, the hook matches one
of the four curiosity patterns, and the ending splits into at most 8 such
pieces. -/
theorem c4_script_gate_amended (s0 : QCS.Scene) (rest : List QCS.Scene) :
    (QCS.validateScript ⟨none, none, s0 :: rest⟩).1 = true ↔
      ((jsSplitWs s0.text).length ≤ 12 ∧
       (∀ p ∈ QCS.bannedHookPhrases, strIncludes (jsToLower s0.text) p = false) ∧
       QCS.matchesHookPattern s0.text = true ∧
       (jsSplitWs (rest.getLastD s0).text).length ≤ 8) := by
  have hhook : QCS.hookOf ⟨none, none, s0 :: rest⟩ = some s0.text := rfl
  have hend : QCS.endingOf ⟨none, none, s0 :: rest⟩ =
      some (rest.getLastD s0).text := by
    unfold QCS.endingOf
    rw [getLast?_cons_eq]
    rfl
  unfold QCS.validateScript
  rw [hhook, hend]
  dsimp only
  by_cases h0 : s0.text = ""
  · rw [if_pos h0]
    refine iff_of_false (by simp) ?_
    rintro ⟨-, -, hpat, -⟩
    rw [h0] at hpat
    exact absurd hpat (by decide)
  · rw [if_neg h0]
    dsimp only
    rw [List.isEmpty_iff]
    constructor
    · intro h
      rcases List.append_eq_nil.mp h with ⟨h123, h4⟩
      rcases List.append_eq_nil.mp h123 with ⟨h12, h3⟩
      rcases List.append_eq_nil.mp h12 with ⟨h1, h2⟩
      refine ⟨?_, ?_, ?_, ?_⟩
      · by_contra hlen
        rw [if_pos (by omega)] at h1
        exact List.noConfusion h1
      · intro p hp
        have hfil := List.map_eq_nil.mp h2
        have := List.filter_eq_nil.mp hfil p hp
        simpa using this
      · by_contra hpat
        rw [if_neg (by simpa using hpat)] at h3
        exact List.noConfusion h3
      · by_cases he : (rest.getLastD s0).text = ""
        · rw [he]
          decide
        · rw [if_neg he] at h4
          by_contra hlen
          rw [if_pos (by omega)] at h4
          exact List.noConfusion h4
    · rintro ⟨h1, h2, h3, h4⟩
      rw [if_neg (by omega)]
      rw [if_pos h3]
      have hfil : QCS.bannedHookPhrases.filter
          (fun p => strIncludes (jsToLower s0.text) p) = [] := by
        rw [List.filter_eq_nil]
        intro p hp
        simp [h2 p hp]
      rw [hfil]
      by_cases he : (rest.getLastD s0).text = ""
      · rw [if_pos he]
        simp
      · rw [if_neg he, if_neg (by omega)]
        simp

/-- Witness for C4 amended: scenario S4's hook (11 words, pattern P1) with a
short ending is accepted by the gate, and the four amended conditions hold. -/
theorem c4_script_gate_amended_witness :
    (QCS.validateScript ⟨none, none,
        [⟨"Most people think coffee wakes you, but it blocks adenosine"⟩, ⟨"Stop."⟩]⟩).1 =
        true ↔
      ((jsSplitWs "Most people think coffee wakes you, but it blocks adenosine").length ≤ 12 ∧
       (∀ p ∈ QCS.bannedHookPhrases,
         strIncludes (jsToLower "Most people think coffee wakes you, but it blocks adenosine")
           p = false) ∧
       QCS.matchesHookPattern "Most people think coffee wakes you, but it blocks adenosine" =
         true ∧
       (jsSplitWs "Stop.").length ≤ 8) :=
  c4_script_gate_amended ⟨"Most people think coffee wakes you, but it blocks adenosine"⟩
    [⟨"Stop."⟩]

/-! ## Claim C2: the deterministic timing model refines its specification -/

/-- The emphasis test of the source equals the trigger rule as worded in the
specification. -/
theorem checkEmphasis_eq_trigger (w : String) :
    AudioService.checkEmphasis w = AudioSpec.emphasisTrigger w := rfl

/-- The word loop of the source emits exactly the word list described by the
specification, for any section multiplier. -/
theorem processWords_eq_emitSection (m : ℚ) (ws : List String) (c sd : ℚ) :
    AudioService.processWords m ws c sd = AudioSpec.emitSection m ws c sd := by
  induction ws generalizing c sd with
  | nil => rfl
  | cons w rest ih =>
    dsimp only [AudioService.processWords, AudioSpec.emitSection, AudioSpec.wordDuration]
    rw [checkEmphasis_eq_trigger, ih]

/-- The section loop of the source equals the claim-side section loop when
there are at least two sections: the source resolves the multiplier as
ending-then-hook, the claim as hook-then-ending, and the two differ only on a
section that is simultaneously first and last. -/
theorem voCore_eq_emitSections (n : ℕ) (hn : 2 ≤ n) :
    ∀ (secs : List String) (idx : ℕ) (c : ℚ),
      AudioService.voCore secs idx n c = AudioSpec.emitSections secs idx n c := by
  intro secs
  induction secs with
  | nil => intro idx c; rfl
  | cons sec rest ih =>
    intro idx c
    have hm : (if idx = n - 1 then (1.2 : ℚ) else if idx = 0 then 0.8 else 1.0) =
        (if idx = 0 then (0.8 : ℚ) else if idx = n - 1 then 1.2 else 1.0) := by
      by_cases h0 : idx = 0
      · have hl : ¬idx = n - 1 := by omega
        rw [if_neg hl, if_pos h0, if_pos h0]
      · by_cases hl : idx = n - 1
        · rw [if_pos hl, if_neg h0, if_pos hl]
        · rw [if_neg hl, if_neg h0, if_neg h0, if_neg hl]
    dsimp only [AudioService.voCore, AudioSpec.emitSections, AudioSpec.clamp]
    rw [hm, processWords_eq_emitSection, ih]

/-- Claim C2: for every script object whose hook, body sentences and ending
are all non-empty strings (so the sections survive filter(Boolean) and there
are at least two sections), generateVoiceover produces exactly the
specification timing: per-word duration 300 times the section multiplier
(0.8 hook, 1.2 ending, 1.0 otherwise), times 1.15 exactly on emphasis
triggers, inter-section pauses clamp(section duration times 0.15, 150, 450),
and duration_ms the rounded final cursor. -/
theorem c2_voiceover_refines_spec (sd : ScriptData) (hh : sd.hook ≠ "")
    (he : sd.ending ≠ "") (hb : ∀ b ∈ sd.body, b ≠ "") :
    AudioService.generateVoiceover sd = AudioSpec.voiceover sd := by
  have hat : AudioService.allTextOf sd = sd.hook :: (sd.body ++ [sd.ending]) := by
    unfold AudioService.allTextOf
    rw [List.filter_eq_self]
    intro a ha
    simp only [Bool.not_eq_true', decide_eq_false_iff_not]
    rcases List.mem_cons.mp ha with rfl | hmem
    · exact hh
    · rcases List.mem_append.mp hmem with hb2 | hend
      · exact hb a hb2
      · rw [List.mem_singleton] at hend
        subst hend
        exact he
  have hn : 2 ≤ (sd.hook :: (sd.body ++ [sd.ending])).length := by
    simp
  unfold AudioService.generateVoiceover AudioSpec.voiceover
  rw [hat]
  dsimp only
  rw [voCore_eq_emitSections _ hn]

/-- Witness for C2: a concrete script with one body sentence. -/
theorem c2_voiceover_refines_spec_witness :
    ("Hi there" ≠ "" ∧ "The end" ≠ "" ∧ ∀ b ∈ ["middle part"], b ≠ "") ∧
      AudioService.generateVoiceover ⟨"Hi there", ["middle part"], "The end"⟩ =
        AudioSpec.voiceover ⟨"Hi there", ["middle part"], "The end"⟩ :=
  ⟨⟨by decide, by decide, by decide⟩,
   c2_voiceover_refines_spec ⟨"Hi there", ["middle part"], "The end"⟩
     (by decide) (by decide) (by decide)⟩

/-! ## Claim C3: ordering invariants of the emitted timestamps -/

/-- Rounding is monotone. -/
theorem jsRound_mono {a b : ℚ} (h : a ≤ b) : jsRound a ≤ jsRound b :=
  Int.floor_le_floor (by linarith)

/-- Rounding is strictly monotone across a gap of at least one. -/
theorem jsRound_lt {a b : ℚ} (h : a + 1 ≤ b) : jsRound a < jsRound b := by
  unfold jsRound
  have h1 : ⌊a + 1 / 2⌋ + 1 = ⌊a + 1 / 2 + 1⌋ := (Int.floor_add_one (a + 1 / 2)).symm
  have h2 : ⌊a + 1 / 2 + 1⌋ ≤ ⌊b + 1 / 2⌋ := Int.floor_le_floor (by linarith)
  omega

/-- The whitespace splitter never returns the empty list. -/
theorem jsSplitWsAux_ne_nil : ∀ (b : Bool) (l acc : List Char), jsSplitWsAux b l acc ≠ [] := by
  intro b l
  induction l generalizing b with
  | nil => intro acc; simp [jsSplitWsAux]
  | cons c rest ih =>
    intro acc
    unfold jsSplitWsAux
    split
    · split
      · exact ih true acc
      · simp
    · exact ih false (c :: acc)

/-- Every section splits into at least one word (possibly the empty word). -/
theorem jsSplitWs_ne_nil (s : String) : jsSplitWs s ≠ [] :=
  jsSplitWsAux_ne_nil false s.data []

/-- The word loop on a non-empty word list emits at least one timestamp. -/
theorem processWords_ne_nil (m : ℚ) (w : String) (ws : List String) (c sd : ℚ) :
    (AudioService.processWords m (w :: ws) c sd).1 ≠ [] := by
  dsimp only [AudioService.processWords]
  simp

/-- Invariants of the word loop: the cursor never moves backwards, every
stamp is non-degenerate and lies between the rounded initial and final
cursors, stamps are ordered, and the last stamp ends exactly at the rounded
final cursor. -/
theorem processWords_inv (m : ℚ) (hm : (4 / 5 : ℚ) ≤ m) :
    ∀ (ws : List String) (c sd : ℚ),
      c ≤ (AudioService.processWords m ws c sd).2.1 ∧
      (∀ t ∈ (AudioService.processWords m ws c sd).1,
        t.start_ms < t.end_ms ∧ jsRound c ≤ t.start_ms ∧
          t.end_ms ≤ jsRound (AudioService.processWords m ws c sd).2.1) ∧
      List.Chain' (fun a b => a.end_ms ≤ b.start_ms)
        (AudioService.processWords m ws c sd).1 ∧
      (((AudioService.processWords m ws c sd).1 = [] ∧
          (AudioService.processWords m ws c sd).2.1 = c) ∨
        (∃ t, ((AudioService.processWords m ws c sd).1).getLast? = some t ∧
          t.end_ms = jsRound (AudioService.processWords m ws c sd).2.1)) := by
  intro ws
  induction ws with
  | nil =>
    intro c sd
    refine ⟨le_refl c, by simp [AudioService.processWords], ?_, Or.inl ⟨rfl, rfl⟩⟩
    simp [AudioService.processWords]
  | cons w ws ih =>
    intro c sd
    have hwd : (240 : ℚ) ≤ (if AudioService.checkEmphasis w then 300 * m * 1.15 else 300 * m) := by
      split
      · nlinarith
      · linarith
    set wd : ℚ := if AudioService.checkEmphasis w then 300 * m * 1.15 else 300 * m with hwddef
    have hstep : AudioService.processWords m (w :: ws) c sd =
        (⟨stripNonWord w, jsRound c, jsRound (c + wd), AudioService.checkEmphasis w⟩ ::
            (AudioService.processWords m ws (c + wd) (sd + wd)).1,
          (AudioService.processWords m ws (c + wd) (sd + wd)).2) := by
      conv_lhs => rw [AudioService.processWords]
    obtain ⟨ihc, ihb, ihchain, ihlast⟩ := ih (c + wd) (sd + wd)
    rw [hstep]
    have hcur : c ≤ (AudioService.processWords m ws (c + wd) (sd + wd)).2.1 := by
      linarith
    have hstamp_lt : jsRound c < jsRound (c + wd) := jsRound_lt (by linarith)
    have hend_le : jsRound (c + wd) ≤
        jsRound (AudioService.processWords m ws (c + wd) (sd + wd)).2.1 := jsRound_mono ihc
    refine ⟨hcur, ?_, ?_, ?_⟩
    · intro t ht
      rcases List.mem_cons.mp ht with rfl | hmem
      · exact ⟨hstamp_lt, le_refl _, hend_le⟩
      · obtain ⟨h1, h2, h3⟩ := ihb t hmem
        exact ⟨h1, le_trans (le_of_lt hstamp_lt) h2, h3⟩
    · rw [List.chain'_cons']
      refine ⟨?_, ihchain⟩
      intro y hy
      have hymem : y ∈ (AudioService.processWords m ws (c + wd) (sd + wd)).1 :=
        List.mem_of_mem_head? hy
      exact (ihb y hymem).2.1
    · rcases ihlast with ⟨hnil, hc⟩ | ⟨t, hlast, hend⟩
      · refine Or.inr ⟨⟨stripNonWord w, jsRound c, jsRound (c + wd),
          AudioService.checkEmphasis w⟩, ?_, ?_⟩
        · rw [hnil]
          rfl
        · rw [hc]
      · refine Or.inr ⟨t, ?_, hend⟩
        rw [List.getLast?_cons]
        cases hne : (AudioService.processWords m ws (c + wd) (sd + wd)).1 with
        | nil => rw [hne] at hlast; exact absurd hlast (by simp)
        | cons a l =>
          rw [hne] at hlast
          rw [hlast]
          rfl

/-- The section loop on a non-empty section list emits at least one
timestamp (every section splits into at least one word). -/
theorem voCore_ne_nil (sec : String) (rest : List String) (idx n : ℕ) (c : ℚ) :
    (AudioService.voCore (sec :: rest) idx n c).1 ≠ [] := by
  dsimp only [AudioService.voCore]
  rcases hws : jsSplitWs sec with _ | ⟨w, ws⟩
  · exact absurd hws (jsSplitWs_ne_nil sec)
  · dsimp only [AudioService.processWords]
    simp

/-- Invariants of the section loop: cursor monotone, stamps non-degenerate,
bounded by the rounded cursors, ordered, and the last stamp ends at the
rounded final cursor (idx + number of sections = n keeps the no-pause rule
aligned with the last section). -/
theorem voCore_inv :
    ∀ (secs : List String) (idx n : ℕ) (c : ℚ), idx + secs.length = n → 0 ≤ c →
      c ≤ (AudioService.voCore secs idx n c).2 ∧
      (∀ t ∈ (AudioService.voCore secs idx n c).1,
        t.start_ms < t.end_ms ∧ jsRound c ≤ t.start_ms ∧
          t.end_ms ≤ jsRound (AudioService.voCore secs idx n c).2) ∧
      List.Chain' (fun a b => a.end_ms ≤ b.start_ms) (AudioService.voCore secs idx n c).1 ∧
      (((AudioService.voCore secs idx n c).1 = [] ∧ (AudioService.voCore secs idx n c).2 = c) ∨
        (∃ t, ((AudioService.voCore secs idx n c).1).getLast? = some t ∧
          t.end_ms = jsRound (AudioService.voCore secs idx n c).2)) := by
  intro secs
  induction secs with
  | nil =>
    intro idx n c _ _
    exact ⟨le_refl c, by simp [AudioService.voCore], by simp [AudioService.voCore],
      Or.inl ⟨rfl, rfl⟩⟩
  | cons sec rest ih =>
    intro idx n c hn hc
    have hmval : (4 / 5 : ℚ) ≤ (if idx = n - 1 then (1.2 : ℚ) else if idx = 0 then 0.8 else 1.0) := by
      split
      · norm_num
      · split <;> norm_num
    set m : ℚ := if idx = n - 1 then (1.2 : ℚ) else if idx = 0 then 0.8 else 1.0 with hmdef
    dsimp only [AudioService.voCore]
    obtain ⟨p_c, p_b, p_chain, p_last⟩ := processWords_inv m hmval (jsSplitWs sec) c 0
    have p_ne : (AudioService.processWords m (jsSplitWs sec) c 0).1 ≠ [] := by
      rcases hws : jsSplitWs sec with _ | ⟨w, ws⟩
      · exact absurd hws (jsSplitWs_ne_nil sec)
      · exact processWords_ne_nil m w ws c 0
    set r1 := AudioService.processWords m (jsSplitWs sec) c 0 with hr1
    set pause : ℚ := min (max (r1.2.2 * 0.15) 150) 450 with hpausedef
    set c2 : ℚ := if idx < n - 1 then r1.2.1 + pause else r1.2.1 with hc2def
    have hpause_nonneg : (0 : ℚ) ≤ pause := by
      rw [hpausedef]
      rcases le_total (max (r1.2.2 * 0.15) 150) 450 with h | h
      · rw [min_eq_left h]
        have := le_max_right (r1.2.2 * 0.15) 150
        linarith
      · rw [min_eq_right h]
        norm_num
    have hcc2 : r1.2.1 ≤ c2 := by
      rw [hc2def]
      split
      · linarith
      · exact le_refl _
    have hc2' : c ≤ c2 := le_trans p_c hcc2
    have hc2nn : (0 : ℚ) ≤ c2 := le_trans hc hc2'
    obtain ⟨t_c, t_b, t_chain, t_last⟩ := ih (idx + 1) n c2
      (by simp only [List.length_cons] at hn; omega) hc2nn
    set tl := AudioService.voCore rest (idx + 1) n c2 with htl
    have hfin : c ≤ tl.2 := le_trans hc2' t_c
    refine ⟨hfin, ?_, ?_, ?_⟩
    · intro t ht
      rcases List.mem_append.mp ht with hmem | hmem
      · obtain ⟨h1, h2, h3⟩ := p_b t hmem
        exact ⟨h1, h2, le_trans h3 (jsRound_mono (le_trans hcc2 t_c))⟩
      · obtain ⟨h1, h2, h3⟩ := t_b t hmem
        exact ⟨h1, le_trans (jsRound_mono hc2') h2, h3⟩
    · rw [List.chain'_append]
      refine ⟨p_chain, t_chain, ?_⟩
      intro x hx y hy
      have hymem : y ∈ tl.1 := List.mem_of_mem_head? hy
      rcases p_last with ⟨hnil, -⟩ | ⟨t0, hlast0, hend0⟩
      · exact absurd hnil p_ne
      · rw [Option.mem_def, hlast0, Option.some_inj] at hx
        rw [hx] at hend0
        calc x.end_ms = jsRound r1.2.1 := hend0
          _ ≤ jsRound c2 := jsRound_mono hcc2
          _ ≤ y.start_ms := (t_b y hymem).2.1
    · rcases t_last with ⟨tnil, tc⟩ | ⟨t, hlast, hend⟩
      · have hrest : rest = [] := by
          rcases rest with _ | ⟨r0, rs⟩
          · rfl
          · exact absurd tnil (voCore_ne_nil r0 rs (idx + 1) n c2)
        have hidx : ¬ idx < n - 1 := by
          subst hrest
          simp only [List.length_cons, List.length_nil] at hn
          omega
        have hc2eq : c2 = r1.2.1 := by
          rw [hc2def, if_neg hidx]
        rcases p_last with ⟨pnil, -⟩ | ⟨t0, hlast0, hend0⟩
        · exact absurd pnil p_ne
        · refine Or.inr ⟨t0, ?_, ?_⟩
          · rw [tnil, List.append_nil]
            exact hlast0
          · rw [tc, hc2eq]
            exact hend0
      · refine Or.inr ⟨t, ?_, hend⟩
        exact List.mem_getLast?_append_of_mem_getLast? (by rw [Option.mem_def]; exact hlast)

/-- The fold computing the maximum end: when the last element is also an
upper bound and nonnegative, the fold returns it. -/
theorem maxEnd_eq_of_getLast (l : List ℤ) (D : ℤ) (hlast : l.getLast? = some D)
    (hb : ∀ x ∈ l, x ≤ D) (hD : 0 ≤ D) : maxEnd l = D := by
  induction l with
  | nil => simp at hlast
  | cons x xs ih =>
    rcases xs with _ | ⟨y, ys⟩
    · simp only [List.getLast?_singleton, Option.some_inj] at hlast
      subst hlast
      simp only [maxEnd, List.foldr]
      exact max_eq_left hD
    · rw [List.getLast?_cons_cons] at hlast
      have hxsD : maxEnd (y :: ys) = D :=
        ih hlast (fun z hz => hb z (List.mem_cons_of_mem x hz))
      have hstep : maxEnd (x :: y :: ys) = max x (maxEnd (y :: ys)) := rfl
      rw [hstep, hxsD]
      exact max_eq_right (hb x (List.mem_cons_self x (y :: ys)))

/-- Claim C3: for every input script (object or plain-string form), the
emitted integer timestamps satisfy start_ms < end_ms per word, consecutive
words never overlap (end_ms of a word never exceeds start_ms of the next),
and the returned duration_ms equals the maximum emitted end_ms (the fold of
max over the end values, 0 for an empty word list; all end values are
nonnegative). -/
theorem c3_audio_timing_invariants :
    (∀ sd : ScriptData,
      (∀ t ∈ (AudioService.generateVoiceover sd).timestamps, t.start_ms < t.end_ms) ∧
      List.Chain' (fun a b => a.end_ms ≤ b.start_ms)
        (AudioService.generateVoiceover sd).timestamps ∧
      (AudioService.generateVoiceover sd).duration_ms =
        maxEnd ((AudioService.generateVoiceover sd).timestamps.map (·.end_ms))) ∧
    (∀ s : String,
      (∀ t ∈ (AudioService.generateVoiceoverText s).timestamps, t.start_ms < t.end_ms) ∧
      List.Chain' (fun a b => a.end_ms ≤ b.start_ms)
        (AudioService.generateVoiceoverText s).timestamps ∧
      (AudioService.generateVoiceoverText s).duration_ms =
        maxEnd ((AudioService.generateVoiceoverText s).timestamps.map (·.end_ms))) := by
  have main : ∀ (secs : List String),
      (∀ t ∈ (AudioService.voCore secs 0 secs.length 0).1, t.start_ms < t.end_ms) ∧
      List.Chain' (fun a b => a.end_ms ≤ b.start_ms)
        (AudioService.voCore secs 0 secs.length 0).1 ∧
      jsRound (AudioService.voCore secs 0 secs.length 0).2 =
        maxEnd ((AudioService.voCore secs 0 secs.length 0).1.map (·.end_ms)) := by
    intro secs
    obtain ⟨hcur, hb, hchain, hlast⟩ :=
      voCore_inv secs 0 secs.length 0 (by omega) (le_refl 0)
    refine ⟨fun t ht => (hb t ht).1, hchain, ?_⟩
    have hjz : jsRound (0 : ℚ) = 0 := by
      unfold jsRound
      rw [show (0 : ℚ) + 1 / 2 = 1 / 2 by norm_num]
      rw [Int.floor_eq_zero_iff]
      constructor <;> norm_num
    rcases hlast with ⟨hnil, hcz⟩ | ⟨t, hl, he⟩
    · rw [hnil, hcz, hjz]
      rfl
    · have hD0 : (0 : ℤ) ≤ jsRound (AudioService.voCore secs 0 secs.length 0).2 := by
        have h := jsRound_mono hcur
        rw [hjz] at h
        exact h
      rw [maxEnd_eq_of_getLast _ (jsRound (AudioService.voCore secs 0 secs.length 0).2)]
      · rw [List.getLast?_map, hl]
        simp [he]
      · intro x hx
        rcases List.mem_map.mp hx with ⟨t0, ht0, rfl⟩
        exact (hb t0 ht0).2.2
      · exact hD0
  constructor
  · intro sd
    exact main (AudioService.allTextOf sd)
  · intro s
    exact main [s]

/-! ## Claim C5: invariants of the visual timeline builder -/

/-- The clip duration picked by one loop iteration lies in the 800 to 3000 ms
band and leaves either nothing or at least 800 ms of the remaining time,
whenever the loop enters with at least 800 ms remaining. -/
theorem pickDuration_spec (minClipMs remaining : ℤ) (r : ℕ)
    (h8 : 800 ≤ minClipMs) (h3k : minClipMs ≤ 3000) (hrem : 800 ≤ remaining) :
    800 ≤ VisualService.pickDuration minClipMs remaining r ∧
    VisualService.pickDuration minClipMs remaining r ≤ 3000 ∧
    (remaining - VisualService.pickDuration minClipMs remaining r = 0 ∨
      800 ≤ remaining - VisualService.pickDuration minClipMs remaining r) := by
  unfold VisualService.pickDuration
  have hmodpos : (0 : ℤ) < 3000 - minClipMs + 1 := by omega
  have hmodlo : (0 : ℤ) ≤ (r : ℤ) % (3000 - minClipMs + 1) :=
    Int.emod_nonneg _ (by omega)
  have hmodhi : (r : ℤ) % (3000 - minClipMs + 1) < 3000 - minClipMs + 1 :=
    Int.emod_lt_of_pos _ hmodpos
  dsimp only
  split_ifs <;> omega

/-- With reuse disabled, every asset delivered by the layered selection has
an id outside the used set. -/
theorem selectUniqueAsset_unused (env : VisualService.Env) (st : VisualService.RunState)
    (kw : String) (used : List String) (lastId : Option String) (a : Asset)
    (st' : VisualService.RunState)
    (h : VisualService.selectUniqueAsset env st kw used false lastId = (some a, st')) :
    used.contains a.id = false := by
  unfold VisualService.selectUniqueAsset at h
  dsimp only at h
  split at h
  · rename_i hfind
    rw [Prod.mk.injEq] at h
    obtain ⟨ha, -⟩ := h
    rw [Option.some_inj] at ha
    subst ha
    have := List.find?_some hfind
    simpa using this
  · split at h
    · rename_i hfind
      rw [Prod.mk.injEq] at h
      obtain ⟨ha, -⟩ := h
      rw [Option.some_inj] at ha
      subst ha
      have := List.find?_some hfind
      simpa using this
    · split at h
      · rw [Prod.mk.injEq] at h
        obtain ⟨ha, -⟩ := h
        have hmem : a ∈ StockProvider.getAllUnusedAssets used := by
          apply List.get?_mem
          exact ha
        have := List.of_mem_filter hmem
        simpa using this
      · rw [Prod.mk.injEq] at h
        obtain ⟨ha, -⟩ := h
        exact absurd ha (by simp)

/-- The recovery wrapper inherits the unused-id guarantee. -/
theorem selectWithRecovery_unused (env : VisualService.Env) (st : VisualService.RunState)
    (kw : String) (uniq : List String) (used : List String) (lastId : Option String)
    (a : Asset) (st' : VisualService.RunState)
    (h : VisualService.selectWithRecovery env st kw uniq used false lastId = (some a, st')) :
    used.contains a.id = false := by
  unfold VisualService.selectWithRecovery at h
  dsimp only at h
  rcases hsel : VisualService.selectUniqueAsset env st kw used false lastId with ⟨o, s2⟩
  rw [hsel] at h
  dsimp only at h
  cases o with
  | some b =>
    rw [Prod.mk.injEq] at h
    obtain ⟨hb, -⟩ := h
    rw [Option.some_inj] at hb
    subst hb
    exact selectUniqueAsset_unused env st kw used lastId _ _ hsel
  | none =>
    clear hsel
    revert h
    induction uniq generalizing s2 with
    | nil =>
      intro h
      rw [VisualService.selectWithRecovery.go] at h
      exact absurd h (by simp)
    | cons k ks ih =>
      intro h
      rw [VisualService.selectWithRecovery.go] at h
      dsimp only at h
      rcases hs : VisualService.selectUniqueAsset env s2 k used false lastId with ⟨o2, s3⟩
      rw [hs] at h
      dsimp only at h
      cases o2 with
      | some b =>
        rw [Prod.mk.injEq] at h
        obtain ⟨hb, -⟩ := h
        rw [Option.some_inj] at hb
        subst hb
        exact selectUniqueAsset_unused env s2 k used lastId _ _ hs
      | none => exact ih s3 h

/-- The end cursor steps through a cons cell. -/
theorem endCursorFrom_cons (c : ℤ) (clip : VisualService.VClip)
    (rest : List VisualService.VClip) :
    endCursorFrom c (clip :: rest) = endCursorFrom clip.end_ms rest := by
  unfold endCursorFrom
  rw [List.getLast?_cons]
  cases hl : rest.getLast? with
  | none => rfl
  | some x => rfl

/-- Pushing one clip to a contiguous timeline keeps it contiguous when the
clip starts at the current end cursor. -/
theorem contiguousFrom_snoc (c : ℤ) (l : List VisualService.VClip)
    (x : VisualService.VClip) (h : contiguousFrom c l)
    (hx : x.start_ms = endCursorFrom c l) : contiguousFrom c (l ++ [x]) := by
  induction l generalizing c with
  | nil =>
    refine ⟨?_, trivial⟩
    simpa [endCursorFrom] using hx
  | cons clip rest ih =>
    obtain ⟨hstart, hrest⟩ := h
    refine ⟨hstart, ih clip.end_ms hrest ?_⟩
    rw [hx, endCursorFrom_cons]

/-- The end cursor after pushing one clip is that clip end. -/
theorem endCursorFrom_snoc (c : ℤ) (l : List VisualService.VClip)
    (x : VisualService.VClip) : endCursorFrom c (l ++ [x]) = x.end_ms := by
  unfold endCursorFrom
  rw [List.getLast?_concat]

/-- Invariant of the timeline generation loop: started from a contiguous
prefix whose cursor either equals the total or is at least 800 ms away from
it, a successful run ends as a contiguous timeline reaching exactly the
total, with all clip durations in the 800 to 3000 ms band, and pairwise
distinct clip ids when reuse is disabled. -/
theorem timelineLoop_inv (env : VisualService.Env) (kws uniq : List String)
    (total minClip : ℤ) (allowReuse : Bool)
    (h8 : 800 ≤ minClip) (h3k : minClip ≤ 3000) :
    ∀ (fuel : ℕ) (current : ℤ) (kIdx : ℕ) (used : List String)
      (tl : List VisualService.VClip) (st : VisualService.RunState)
      (out : List VisualService.VClip),
      VisualService.timelineLoop env kws uniq total minClip allowReuse
        fuel current kIdx used tl st = .ok out →
      (current = total ∨ (current < total ∧ 800 ≤ total - current)) →
      contiguousFrom 0 tl →
      endCursorFrom 0 tl = current →
      (∀ clip ∈ tl, 800 ≤ clip.end_ms - clip.start_ms ∧ clip.end_ms - clip.start_ms ≤ 3000) →
      (allowReuse = false →
        (∀ clip ∈ tl, used.contains clip.clip_id = true) ∧
        tl.Pairwise (fun a b => a.clip_id ≠ b.clip_id)) →
      contiguousFrom 0 out ∧ endCursorFrom 0 out = total ∧
        (∀ clip ∈ out, 800 ≤ clip.end_ms - clip.start_ms ∧ clip.end_ms - clip.start_ms ≤ 3000) ∧
        (allowReuse = false → out.Pairwise (fun a b => a.clip_id ≠ b.clip_id)) := by
  intro fuel
  induction fuel with
  | zero =>
    intro current kIdx used tl st out h hdisj hcont hcur hdur huniq
    unfold VisualService.timelineLoop at h
    split at h
    · exact absurd h (by simp)
    · rename_i hnotlt
      rw [Except.ok.injEq] at h
      subst h
      have hct : current = total := by
        rcases hdisj with h | ⟨h, -⟩
        · exact h
        · exact absurd h hnotlt
      exact ⟨hcont, by rw [hcur, hct], hdur, fun hr => (huniq hr).2⟩
  | succ fuel ih =>
    intro current kIdx used tl st out h hdisj hcont hcur hdur huniq
    unfold VisualService.timelineLoop at h
    split at h
    · rename_i hlt
      have hrem : 800 ≤ total - current := by
        rcases hdisj with h' | ⟨-, h'⟩
        · omega
        · exact h'
      dsimp only at h
      rcases hsel : VisualService.selectWithRecovery env
          (VisualService.draw env st).2
          ((kws.get? (kIdx % kws.length)).getD "") uniq used allowReuse
          ((tl.getLast?).map (·.clip_id)) with ⟨oasset, st2⟩
      rw [hsel] at h
      dsimp only at h
      cases oasset with
      | none => exact absurd h (by simp)
      | some asset =>
        dsimp only at h
        obtain ⟨hd8, hd3k, hdnext⟩ := pickDuration_spec minClip (total - current)
          (VisualService.draw env st).1 h8 h3k hrem
        set d := VisualService.pickDuration minClip (total - current)
          (VisualService.draw env st).1 with hddef
        set newClip : VisualService.VClip :=
          { clip_id := asset.id,
            source := asset.provider,
            file_path := VisualService.localAssetPath asset,
            start_ms := current,
            end_ms := current + d,
            keyword := (kws.get? (kIdx % kws.length)).getD "",
            transform := (VisualService.generateTransform env st2).1 } with hclipdef
        refine ih (current + d) (kIdx + 1) (used ++ [asset.id]) (tl ++ [newClip])
          (VisualService.generateTransform env st2).2 out h ?_ ?_ ?_ ?_ ?_
        · rcases hdnext with hz | hge
          · exact Or.inl (by omega)
          · exact Or.inr ⟨by omega, by omega⟩
        · exact contiguousFrom_snoc 0 tl newClip hcont (by rw [hclipdef, hcur])
        · rw [endCursorFrom_snoc]
        · intro clip hclip
          rcases List.mem_append.mp hclip with hmem | hmem
          · exact hdur clip hmem
          · rw [List.mem_singleton] at hmem
            subst hmem
            constructor
            · simp only [hclipdef]
              omega
            · simp only [hclipdef]
              omega
        · intro hr
          obtain ⟨hused, hpw⟩ := huniq hr
          have hnew : used.contains asset.id = false := by
            subst hr
            exact selectWithRecovery_unused env (VisualService.draw env st).2
              ((kws.get? (kIdx % kws.length)).getD "") uniq used
              ((tl.getLast?).map (·.clip_id)) asset st2 hsel
          constructor
          · intro clip hclip
            rcases List.mem_append.mp hclip with hmem | hmem
            · exact List.elem_iff.mpr
                (List.mem_append_left _ (List.elem_iff.mp (hused clip hmem)))
            · rw [List.mem_singleton] at hmem
              subst hmem
              simp [hclipdef]
          · rw [List.pairwise_append]
            refine ⟨hpw, List.pairwise_singleton _ _, ?_⟩
            intro x hx y hy
            rw [List.mem_singleton] at hy
            subst hy
            intro heq
            have hxused := hused x hx
            rw [hclipdef] at heq
            dsimp only at heq
            rw [heq] at hxused
            rw [hxused] at hnew
            exact Bool.noConfusion hnew
    · rename_i hnotlt
      rw [Except.ok.injEq] at h
      subst h
      have hct : current = total := by
        rcases hdisj with h' | ⟨h', -⟩
        · exact h'
        · exact absurd h' hnotlt
      exact ⟨hcont, by rw [hcur, hct], hdur, fun hr => (huniq hr).2⟩

/-- Claim C5: for every non-empty keyword list, every target duration of at
least 800 ms, every stock-search function, cache state and random stream,
whenever generateTimeline returns a timeline it is contiguous (first clip at
0, each clip starting at the previous end, last clip ending exactly at the
target), every clip duration lies in the 800 to 3000 ms band, and the clip
ids are pairwise distinct unless reuse was enabled because the database size
(18 unique assets) times 3000 ms cannot cover the target duration. -/
theorem c5_visual_timeline_invariants (env : VisualService.Env)
    (keywords : List String) (totalDurationMs : ℤ) (st : VisualService.RunState)
    (tl : List VisualService.VClip)
    (hkw : keywords ≠ []) (hdur : 800 ≤ totalDurationMs)
    (h : VisualService.generateTimeline env keywords totalDurationMs st = .ok tl) :
    (tl ≠ [] ∧ contiguousFrom 0 tl ∧ endCursorFrom 0 tl = totalDurationMs) ∧
    (∀ clip ∈ tl, 800 ≤ clip.end_ms - clip.start_ms ∧ clip.end_ms - clip.start_ms ≤ 3000) ∧
    (¬ (((StockProvider.getAllUnusedAssets []).length : ℤ) * 3000 < totalDurationMs) →
      tl.Pairwise (fun a b => a.clip_id ≠ b.clip_id)) := by
  unfold VisualService.generateTimeline at h
  rw [if_neg (by decide)] at h
  dsimp only at h
  have h18 : ((StockProvider.getAllUnusedAssets []).length : ℤ) = 18 := by decide
  set minClip : ℤ := max 800 (min
    (jsCeilDiv totalDurationMs (max 1 (((StockProvider.getAllUnusedAssets []).length : ℕ) : ℤ)))
    3000) with hmc
  have h8 : (800 : ℤ) ≤ minClip := le_max_left _ _
  have h3k : minClip ≤ 3000 := max_le (by norm_num) (min_le_right _ _)
  obtain ⟨hcont, hcur, hdurs, hpw⟩ := timelineLoop_inv env keywords (VisualService.jsUniq keywords)
    totalDurationMs minClip
    (decide (((StockProvider.getAllUnusedAssets []).length : ℤ) * 3000 < totalDurationMs))
    h8 h3k (totalDurationMs.toNat + 1) 0 0 [] []
    (VisualService.prefetch env (VisualService.jsUniq keywords) st) tl h
    (Or.inr ⟨by omega, by omega⟩) trivial rfl (by simp) (by intro hr; exact ⟨by simp, List.Pairwise.nil⟩)
  refine ⟨⟨?_, hcont, hcur⟩, hdurs, ?_⟩
  · intro hnil
    rw [hnil] at hcur
    have h0 : endCursorFrom 0 ([] : List VisualService.VClip) = 0 := rfl
    rw [h0] at hcur
    omega
  · intro hnr
    exact hpw (by simpa using hnr)

/-- Witness for C5: a concrete run (empty search results, zero random
stream, one keyword, 1000 ms target) succeeds and satisfies the invariants. -/
theorem c5_visual_timeline_invariants_witness :
    ∃ tl, VisualService.generateTimeline ⟨fun _ => [], fun _ => 0⟩ ["cat"] 1000 ⟨[], 0⟩ =
        .ok tl ∧
      ((tl ≠ [] ∧ contiguousFrom 0 tl ∧ endCursorFrom 0 tl = 1000) ∧
       (∀ clip ∈ tl, 800 ≤ clip.end_ms - clip.start_ms ∧ clip.end_ms - clip.start_ms ≤ 3000) ∧
       (¬ (((StockProvider.getAllUnusedAssets []).length : ℤ) * 3000 < 1000) →
         tl.Pairwise (fun a b => a.clip_id ≠ b.clip_id))) := by
  refine ⟨[⟨"mock_fin_1", "MockStock", "assets/clips/mock_fin_1.mp4", 0, 1000, "cat",
      ⟨1, "none"⟩⟩], by rfl,
    c5_visual_timeline_invariants ⟨fun _ => [], fun _ => 0⟩ ["cat"] 1000 ⟨[], 0⟩ _
      (by decide) (by decide) (by rfl)⟩

/-! ## Claim C7: invariants of a validated edit plan -/

/-- A pattern-interrupt witness for the window from s to t. -/
def piWitness (s t : ℤ) (e : EditingService.PlanEntry) : Prop :=
  e.reason = "pattern_interrupt" ∧ e.start_ms < t ∧ s < e.end_ms

/-- A successful pattern-interrupt application marks an entry intersecting
the window. -/
theorem applyPatternInterrupt_some (l : List EditingService.PlanEntry) (a b : ℤ)
    (l' : List EditingService.PlanEntry)
    (h : EditingService.applyPatternInterrupt l a b = some l') :
    ∃ e ∈ l', piWitness a b e := by
  induction l generalizing l' with
  | nil => simp [EditingService.applyPatternInterrupt] at h
  | cons p rest ih =>
    unfold EditingService.applyPatternInterrupt at h
    split at h
    · rename_i hcond
      rw [Option.some_inj] at h
      subst h
      exact ⟨_, List.mem_cons_self _ _, rfl, hcond.1, hcond.2.1⟩
    · rcases hrec : EditingService.applyPatternInterrupt rest a b with _ | l2
      · rw [hrec] at h
        exact absurd h (by simp)
      · rw [hrec] at h
        have h2 : p :: l2 = l' := by simpa using h
        subst h2
        obtain ⟨e, he, hw⟩ := ih l2 hrec
        exact ⟨e, List.mem_cons_of_mem p he, hw⟩

/-- A pattern-interrupt application preserves existing witnesses of any
window: the mutated entry keeps its bounds and retains (or acquires) the
pattern_interrupt reason. -/
theorem applyPatternInterrupt_preserve (l : List EditingService.PlanEntry) (a b : ℤ)
    (l' : List EditingService.PlanEntry) (s t : ℤ)
    (h : EditingService.applyPatternInterrupt l a b = some l')
    (hw : ∃ e ∈ l, piWitness s t e) : ∃ e ∈ l', piWitness s t e := by
  induction l generalizing l' with
  | nil => simp [EditingService.applyPatternInterrupt] at h
  | cons p rest ih =>
    obtain ⟨e, he, hew⟩ := hw
    unfold EditingService.applyPatternInterrupt at h
    split at h
    · rw [Option.some_inj] at h
      subst h
      rcases List.mem_cons.mp he with rfl | hmem
      · exact ⟨_, List.mem_cons_self _ _, rfl, hew.2.1, hew.2.2⟩
      · exact ⟨e, List.mem_cons_of_mem _ hmem, hew⟩
    · rcases hrec : EditingService.applyPatternInterrupt rest a b with _ | l2
      · rw [hrec] at h
        exact absurd h (by simp)
      · rw [hrec] at h
        have h2 : p :: l2 = l' := by simpa using h
        subst h2
        rcases List.mem_cons.mp he with rfl | hmem
        · exact ⟨e, List.mem_cons_self _ _, hew⟩
        · obtain ⟨e2, he2, hw2⟩ := ih l2 hrec ⟨e, hmem, hew⟩
          exact ⟨e2, List.mem_cons_of_mem p he2, hw2⟩

/-- After the pattern loop succeeds, every processed window has an
intersecting entry with the pattern_interrupt reason. -/
theorem patternLoop_post (ws : List (ℤ × ℤ)) (entries out : List EditingService.PlanEntry)
    (h : EditingService.patternLoop ws entries = some out) :
    ∀ w ∈ ws, ∃ e ∈ out, piWitness w.1 w.2 e := by
  induction ws generalizing entries with
  | nil => simp
  | cons w rest ih =>
    unfold EditingService.patternLoop at h
    rcases happ : EditingService.applyPatternInterrupt entries w.1 w.2 with _ | entries2
    · rw [happ] at h
      exact absurd h (by simp)
    · rw [happ] at h
      intro w2 hw2
      rcases List.mem_cons.mp hw2 with rfl | hmem
      · -- the witness for this window survives the remaining applications
        have hstart := applyPatternInterrupt_some entries w2.1 w2.2 entries2 happ
        clear happ ih hw2
        induction rest generalizing entries2 with
        | nil =>
          unfold EditingService.patternLoop at h
          rw [Option.some_inj] at h
          subst h
          exact hstart
        | cons w3 rest3 ih3 =>
          unfold EditingService.patternLoop at h
          rcases happ3 : EditingService.applyPatternInterrupt entries2 w3.1 w3.2 with _ | entries3
          · rw [happ3] at h
            exact absurd h (by simp)
          · rw [happ3] at h
            exact ih3 entries3 h
              (applyPatternInterrupt_preserve entries2 w3.1 w3.2 entries3 w2.1 w2.2 happ3 hstart)
      · exact ih entries2 h w2 hmem

/-- Window membership: every 2500 ms window index below the duration is in
the generated window list. -/
theorem windows_mem (total : ℤ) (k : ℕ) (hk : (k : ℤ) * 2500 < total) :
    ((k : ℤ) * 2500, min (((k : ℤ) + 1) * 2500) total) ∈ EditingService.windowsList total := by
  have hk2 : k ∈ List.range (EditingService.numWindows total) := by
    rw [List.mem_range]
    unfold EditingService.numWindows EditingService.PATTERN_INTERVAL_MS
    omega
  have hmem := List.mem_map_of_mem
    (fun k : ℕ => ((k : ℤ) * 2500, min (((k : ℤ) + 1) * 2500) total)) hk2
  unfold EditingService.windowsList EditingService.PATTERN_INTERVAL_MS
  exact hmem

/-- An empty gap-error fold certifies coverage of the projected plan. -/
theorem gapErrors_covers (total : ℤ) :
    ∀ (l : List EditingService.PlanEntry) (expected : ℤ),
      (EditingService.gapErrors expected l).1 = [] →
      |(EditingService.gapErrors expected l).2 - total| ≤ 200 →
      coversFrom total expected (l.map EditingService.project) := by
  intro l
  induction l with
  | nil =>
    intro expected _ hend
    simpa [EditingService.gapErrors, coversFrom] using hend
  | cons p rest ih =>
    intro expected hnil hend
    unfold EditingService.gapErrors at hnil hend
    dsimp only at hnil hend
    rw [List.append_eq_nil] at hnil
    obtain ⟨h1, h2⟩ := hnil
    have hgap : |p.start_ms - expected| ≤ 20 := by
      by_contra hc
      rw [if_pos (by omega)] at h1
      exact List.noConfusion h1
    refine ⟨hgap, ?_⟩
    exact ih p.end_ms h2 hend

/-- An empty flatMap has empty pieces. -/
theorem flatMap_nil_at {α β : Type} (l : List α) (f : α → List β)
    (h : l.flatMap f = []) (x : α) (hx : x ∈ l) : f x = [] := by
  induction l with
  | nil => simp at hx
  | cons a as ih =>
    simp only [List.flatMap_cons, List.append_eq_nil] at h
    rcases List.mem_cons.mp hx with rfl | hm
    · exact h.1
    · exact ih h.2 hm

/-- In the Except monad a successful bind factors through a successful first
component. -/
theorem except_bind_ok {ε α β : Type} (x : Except ε α) (f : α → Except ε β) (v : β)
    (h : x >>= f = .ok v) : ∃ a, x = .ok a ∧ f a = .ok v := by
  cases x with
  | error e =>
    have h2 : (Except.error e : Except ε β) = .ok v := h
    exact Except.noConfusion h2
  | ok a => exact ⟨a, rfl, h⟩

/-- Claim C7: whenever generateEditPlan returns a valid plan, the plan
(sorted by start_ms, as returned) is contiguous within 20 ms starting from 0
and ends within 200 ms of the audio duration, every segment lasts at most
3000 ms, any non-base zoom is justified by reason emphasis, and every
2500 ms window below the duration intersects a pattern_interrupt segment. -/
theorem c7_edit_plan_invariants (audio : AudioResult) (captions : List Caption)
    (visuals : List VisualService.VClip) (plan : List EditingService.EditSegment)
    (h : EditingService.generateEditPlan audio captions visuals = .ok (.valid plan)) :
    coversFrom audio.duration_ms 0 plan ∧
    (∀ s ∈ plan, s.end_ms - s.start_ms ≤ 3000) ∧
    (∀ s ∈ plan, s.zoom ≠ EditingService.BASE_ZOOM → s.reason = "emphasis") ∧
    (∀ k : ℕ, (k : ℤ) * 2500 < audio.duration_ms →
      ∃ s ∈ plan, s.reason = "pattern_interrupt" ∧
        s.start_ms < min (((k : ℤ) + 1) * 2500) audio.duration_ms ∧
        (k : ℤ) * 2500 < s.end_ms) := by
  unfold EditingService.generateEditPlan at h
  try dsimp only at h
  obtain ⟨segs1, h1, h⟩ := except_bind_ok _ _ _ h
  try dsimp only at h
  obtain ⟨segs3, h3, h⟩ := except_bind_ok _ _ _ h
  try dsimp only at h
  obtain ⟨entries0, h4, h⟩ := except_bind_ok _ _ _ h
  try dsimp only at h
  split at h
  · rename_i hpl
    exact EditingService.EditResult.noConfusion (Except.ok.inj h)
  · rename_i entries2 hpl
    try dsimp only at h
    split at h
    · rename_i habs
      split at h
      · rename_i hE
        replace hE := List.isEmpty_iff.mp hE
        rw [List.append_eq_nil] at hE
        obtain ⟨h123, -⟩ := hE
        rw [List.append_eq_nil] at h123
        exact List.noConfusion h123.2
      · rename_i hE
        exact EditingService.EditResult.noConfusion (Except.ok.inj h)
    · rename_i habs
      split at h
      · rename_i hE
        have hplan := EditingService.EditResult.valid.inj (Except.ok.inj h)
        subst hplan
        replace hE := List.isEmpty_iff.mp hE
        rw [List.append_eq_nil] at hE
        obtain ⟨h123, hzr⟩ := hE
        rw [List.append_eq_nil] at h123
        obtain ⟨h12, -⟩ := h123
        rw [List.append_eq_nil] at h12
        obtain ⟨hlen, hgap⟩ := h12
        unfold EditingService.lengthZoomErrors at hlen
        unfold EditingService.zoomReasonErrors at hzr
        have hmemsort : ∀ p : EditingService.PlanEntry,
            p ∈ EditingService.sortPlan entries2 ↔ p ∈ entries2 := by
          intro p
          unfold EditingService.sortPlan
          exact (List.perm_insertionSort _ entries2).mem_iff
        refine ⟨?_, ?_, ?_, ?_⟩
        · exact gapErrors_covers audio.duration_ms (EditingService.sortPlan entries2) 0 hgap
            (not_lt.mp habs)
        · intro s hs
          rcases List.mem_map.mp hs with ⟨p, hp, rfl⟩
          have hp2 : p ∈ entries2 := (hmemsort p).mp hp
          have hfl := flatMap_nil_at entries2 _ hlen p hp2
          rw [List.append_eq_nil] at hfl
          obtain ⟨hlen1, -⟩ := hfl
          dsimp only [EditingService.project]
          by_contra hc
          rw [if_pos (show p.end_ms - p.start_ms > EditingService.MAX_SEGMENT_MS by
            unfold EditingService.MAX_SEGMENT_MS
            omega)] at hlen1
          exact List.noConfusion hlen1
        · intro s hs hzoom
          rcases List.mem_map.mp hs with ⟨p, hp, rfl⟩
          have hfl := flatMap_nil_at (EditingService.sortPlan entries2) _ hzr p hp
          dsimp only [EditingService.project] at hzoom ⊢
          by_cases hr : p.reason = "emphasis"
          · exact hr
          · rw [if_pos ⟨hzoom, hr⟩] at hfl
            exact List.noConfusion hfl
        · intro k hk
          have hwmem := windows_mem audio.duration_ms k hk
          obtain ⟨e, he, hw⟩ := patternLoop_post _ _ entries2 hpl _ hwmem
          refine ⟨EditingService.project e,
            List.mem_map_of_mem EditingService.project ((hmemsort e).mpr he), ?_, ?_, ?_⟩
          · exact hw.1
          · exact hw.2.1
          · exact hw.2.2
      · rename_i hE
        exact EditingService.EditResult.noConfusion (Except.ok.inj h)

/-- Witness for C7: a concrete successful run of generateEditPlan (two words,
one caption, one visual clip, 1000 ms audio) returning a valid plan, to which
the invariants apply. -/
theorem c7_edit_plan_invariants_witness :
    ∃ plan, EditingService.generateEditPlan ⟨[⟨"hi", 0, 300, false⟩, ⟨"yo", 300, 600, false⟩], 1000⟩
        [⟨"hi yo", 0, 600, []⟩]
        [⟨"clipA", "Mock", "p", 0, 1000, "kw", ⟨1, "none"⟩⟩] = .ok (.valid plan) ∧
      (coversFrom 1000 0 plan ∧
       (∀ s ∈ plan, s.end_ms - s.start_ms ≤ 3000) ∧
       (∀ s ∈ plan, s.zoom ≠ EditingService.BASE_ZOOM → s.reason = "emphasis") ∧
       (∀ k : ℕ, (k : ℤ) * 2500 < 1000 →
         ∃ s ∈ plan, s.reason = "pattern_interrupt" ∧
           s.start_ms < min (((k : ℤ) + 1) * 2500) 1000 ∧
           (k : ℤ) * 2500 < s.end_ms)) := by
  refine ⟨[⟨0, 600, "clipA", 1, "right", "cap_0", "pattern_interrupt"⟩,
           ⟨600, 1000, "clipA", 1, "none", "silence_tail_0", "cut"⟩], by rfl,
    c7_edit_plan_invariants ⟨[⟨"hi", 0, 300, false⟩, ⟨"yo", 300, 600, false⟩], 1000⟩
      [⟨"hi yo", 0, 600, []⟩] [⟨"clipA", "Mock", "p", 0, 1000, "kw", ⟨1, "none"⟩⟩] _ (by rfl)⟩

/-! ## Claim C10: frame conditions of updateJobStatus -/

/-- Helper for C10: replacing the value stored under a present key makes the
lookup return the new value. -/
theorem getJob_setJob (l : List (String × Job)) (jobId : String) (j0 j' : Job)
    (h : (l.find? (fun p => p.1 = jobId)).map (·.2) = some j0) :
    ((InMemoryQueue.setJob l jobId j').find? (fun p => p.1 = jobId)).map (·.2) = some j' := by
  induction l with
  | nil => simp at h
  | cons hd tl ih =>
    by_cases hk : hd.1 = jobId
    · simp [InMemoryQueue.setJob, hk, List.find?]
    · simp only [List.find?, InMemoryQueue.setJob] at h ⊢
      rw [if_neg (by simpa using hk)]
      simp only [show (decide (hd.1 = jobId)) = false by simpa using hk] at h ⊢
      simp only [List.find?_cons, show (decide (hd.1 = jobId)) = false by simpa using hk]
      exact ih h

/-- Claim C10: for an existing job, updateJobStatus changes only the fields
status, result, progress, eta_seconds and message; result changes only when a
result argument is supplied, and progress, eta_seconds and message only when
the corresponding argument is not null — in particular a progress-only
update leaves the stored result untouched, and id, topic, duration_seconds,
tone, dry_run and created_at are never modified. -/
theorem c10_update_job_frame (st : InMemoryQueue.State) (jobId status : String)
    (result : Option String) (progress eta : Option ℚ) (message : Option String)
    (j : Job) (h : InMemoryQueue.getJob st jobId = some j) :
    ∃ j', InMemoryQueue.getJob
        (InMemoryQueue.updateJobStatus st jobId status result progress eta message) jobId =
          some j' ∧
      j'.id = j.id ∧ j'.topic = j.topic ∧ j'.duration_seconds = j.duration_seconds ∧
      j'.tone = j.tone ∧ j'.dry_run = j.dry_run ∧ j'.created_at = j.created_at ∧
      j'.status = status ∧
      (result = none → j'.result = j.result) ∧
      (progress = none → j'.progress = j.progress) ∧
      (eta = none → j'.eta_seconds = j.eta_seconds) ∧
      (message = none → j'.message = j.message) := by
  refine ⟨InMemoryQueue.applyUpdate j status result progress eta message, ?_, ?_⟩
  · unfold InMemoryQueue.updateJobStatus
    rw [h]
    exact getJob_setJob st.jobs jobId j _ h
  · unfold InMemoryQueue.applyUpdate
    refine ⟨rfl, rfl, rfl, rfl, rfl, rfl, rfl, ?_, ?_, ?_, ?_⟩
    · rintro rfl; simp
    · rintro rfl; simp
    · rintro rfl; simp
    · rintro rfl; simp

/-- Witness for C10: a progress-only update (result argument null) of a
stored job keeps the previously stored result and all identity fields. -/
theorem c10_update_job_frame_witness :
    ∃ j', InMemoryQueue.getJob
        (InMemoryQueue.updateJobStatus
          ⟨[("job1", ⟨"job1", "cats", 30, "neutral", false, "PROCESSING", 10, 60, 7,
              some "partial result", none⟩)], []⟩
          "job1" "AUDIO_GEN" none (some 42) none none) "job1" = some j' ∧
      j'.id = "job1" ∧ j'.topic = "cats" ∧ j'.duration_seconds = 30 ∧
      j'.tone = "neutral" ∧ j'.dry_run = false ∧ j'.created_at = 7 ∧
      j'.status = "AUDIO_GEN" ∧
      (none = (none : Option String) → j'.result = some "partial result") ∧
      ((some 42 : Option ℚ) = none → j'.progress = 10) ∧
      (none = (none : Option ℚ) → j'.eta_seconds = 60) ∧
      (none = (none : Option String) → j'.message = none) := by
  exact c10_update_job_frame
    ⟨[("job1", ⟨"job1", "cats", 30, "neutral", false, "PROCESSING", 10, 60, 7,
        some "partial result", none⟩)], []⟩
    "job1" "AUDIO_GEN" none (some 42) none none
    ⟨"job1", "cats", 30, "neutral", false, "PROCESSING", 10, 60, 7,
      some "partial result", none⟩
    (by decide)

end GenVideo
